import Mathlib

/-!
# KWIVER: KLV blob codec, ST 1108 update driver, string helpers, SfM constraints

A shallow embedding of `arrows/klv/klv_blob.cxx`, `vital/util/string.h` and
`vital/types/sfm_constraints.cxx`, and a model of the ST 1108 update filter
exercised by `arrows/klv/tests/test_update_klv.cxx`, together with the
properties the specification states about them.

## Memory model

The C++ templates `klv_read_blob` and `klv_write_blob` receive a lone iterator
(`uint8_t*`, `std::vector<uint8_t>::iterator`, ...): they are never told where
the underlying buffer ends. The embedding therefore uses a flat byte memory,
a total map from addresses to octets, and an iterator is an address. A buffer
is an address range `[first, last)` of that memory; cells outside of it are
ordinary cells, which is what lets the embedding say which cells a call reads
or writes. Addresses are natural numbers: inside a buffer no pointer
arithmetic of the code wraps around.

A thrown C++ exception is the `Except.error` case of the first component of a
result; the second component is the state the caller still observes after the
call (the iterator passed by reference, and for a write the memory).
-/

namespace kwiver.arrows.klv

/-! ## Definitions -/

/-- One octet, the type every KLV iterator must point to
(`KLV_ASSERT_UINT8_ITERATOR`). -/
abbrev uint8_t := Fin 256

/-- Byte sequence `klv_bytes_t`, a `std::vector< uint8_t >`. -/
abbrev klv_bytes_t := List uint8_t

/-- Flat byte memory addressed by natural numbers. -/
abbrev memory := Nat → uint8_t

/-- Exceptions of `vital/exceptions/metadata.h` raised by the blob codec. -/
inductive vital_exception where
  | metadata_buffer_overflow (what : String)
deriving DecidableEq, Repr

/-- The class `klv_blob`: a wrapper around its member `bytes`. The structure
constructor is the C++ constructor `klv_blob( klv_bytes_t const& bytes )`. -/
structure klv_blob where
  bytes : klv_bytes_t
deriving DecidableEq, Repr

/-- Default constructor `klv_blob::klv_blob()`: the member `bytes` is
default-initialised, an empty vector. -/
def klv_blob.default_constructed : klv_blob := { bytes := [] }

/-- Accessor `klv_blob::operator*` / `operator->`: the wrapped byte vector. -/
def klv_blob.deref (value : klv_blob) : klv_bytes_t := value.bytes

/-- Range constructor `klv_bytes_t{ begin, end }`: the octets stored at the
addresses `begin`, `begin + 1`, ..., `end - 1`, in that order. -/
def bytes_from_range (mem : memory) (begin_ end_ : Nat) : klv_bytes_t :=
  (List.range (end_ - begin_)).map (fun i => mem (begin_ + i))

/-- Algorithm `std::copy( first, last, d_first )` on a byte sequence: stores
the elements one after another starting at `d_first` and returns the memory
together with the iterator one past the last element written. -/
def std_copy : klv_bytes_t → memory → Nat → memory × Nat
  | [], mem, d_first => (mem, d_first)
  | b :: rest, mem, d_first => std_copy rest (Function.update mem d_first b) (d_first + 1)

/-- Function `klv_read_blob( Iterator& data, size_t length )`:
```
auto const begin = data;
auto const end = ( data += length );
return klv_bytes_t{ begin, end };
```
The result pairs the returned blob with the iterator `data` after the call. -/
def klv_read_blob (mem : memory) (data : Nat) (length : Nat) :
    Except vital_exception klv_blob × Nat :=
  let begin_ := data
  let end_ := data + length
  (Except.ok { bytes := bytes_from_range mem begin_ end_ }, end_)

/-- Function `klv_write_blob( klv_blob const& value, Iterator& data, size_t max_length )`:
```
if( max_length < value->size() )
  VITAL_THROW( metadata_buffer_overflow, "writing blob overruns end of data buffer" );
data = std::copy( value->cbegin(), value->cend(), data );
```
The result pairs the outcome with the memory and the iterator `data` after
the call. -/
def klv_write_blob (value : klv_blob) (mem : memory) (data : Nat) (max_length : Nat) :
    Except vital_exception Unit × (memory × Nat) :=
  if max_length < value.deref.length then
    (Except.error
      (vital_exception.metadata_buffer_overflow "writing blob overruns end of data buffer"),
     (mem, data))
  else
    (Except.ok (), std_copy value.deref mem data)

/-- Function `klv_blob_length( klv_blob const& value )`: `value->size()`. -/
def klv_blob_length (value : klv_blob) : Nat := value.deref.length

/-- A memory holds the byte sequence `src` at address `first`: the buffer
`[first, first + src.length)` has exactly the contents `src`. -/
def holds_at (mem : memory) (first : Nat) (src : klv_bytes_t) : Prop :=
  ∀ i (h : i < src.length), mem (first + i) = src.get ⟨i, h⟩

instance (mem : memory) (first : Nat) (src : klv_bytes_t) : Decidable (holds_at mem first src) := by
  unfold holds_at; infer_instance

/-- Memory in which every cell holds zero. -/
def zero_memory : memory := fun _ => 0

/-- Memory holding the byte sequence `src` at address `first` and `fill` in
every other cell. -/
def memory_of (first : Nat) (src : klv_bytes_t) (fill : uint8_t) : memory :=
  fun a => if first ≤ a then src.getD (a - first) fill else fill

/-! ## Value model, packets and the update driver

The sources contain the test of the `update_klv` filter
(`arrows/klv/tests/test_update_klv.cxx`) but neither the filter nor the KLV
value, set and ST 1108 headers it uses. The definitions of this section are
modelled from the specification (sections 3, 4.3, 4.4 and 6) and from the
names the test uses. Real numbers (`double`) are exact rationals; the wall
clock is an input of the driver. -/

/-- Modelled from the spec: the tag of a local-set entry, a small unsigned
integer (`klv_lds_key` of the absent `klv_key.h`). -/
abbrev klv_lds_key := Nat

/-- Modelled from the spec: the value tagged union of section 3 (the absent
`klv_value.h`): a byte blob, a nested local set (an ordered multi-map kept in
insertion order), a real number, an unsigned integer, text, an enumerated
code, and the Metric Period Pack composite `{ index, duration }` of the
glossary (`klv_1108_metric_period_pack` in the test). -/
inductive klv_value where
  | blob (b : klv_blob)
  | local_set (entries : List (klv_lds_key × klv_value))
  | real (x : ℚ)
  | uint (n : Nat)
  | text (s : String)
  | enumeration (code : Nat)
  | metric_period_pack (index : Nat) (duration : ℤ)

/-- Modelled from the spec: the local set of section 3, an ordered multi-map
from tag to value whose iteration order is insertion order (the absent
`klv_set.h`). -/
abbrev klv_local_set := List (klv_lds_key × klv_value)

/-- Modelled from the spec: `count(tag)`, the number of entries of the tag. -/
def klv_local_set.count (set : klv_local_set) (tag : klv_lds_key) : Nat :=
  (set.filter (fun entry => entry.1 == tag)).length

/-- Modelled from the spec: `all_at(tag)`, every entry sharing the tag, in
order. -/
def klv_local_set.all_at (set : klv_local_set) (tag : klv_lds_key) : klv_local_set :=
  set.filter (fun entry => entry.1 == tag)

/-- Modelled from the spec: `at(tag)`, the value of a tag expected to be
unique (the first entry of the tag; nothing when there is none). -/
def klv_local_set.at (set : klv_local_set) (tag : klv_lds_key) : Option klv_value :=
  (set.find? (fun entry => entry.1 == tag)).map (fun entry => entry.2)

/-- Modelled from the spec: `erase(tag)`, which removes every entry with the
tag and keeps the others in their order. -/
def klv_local_set.erase (set : klv_local_set) (tag : klv_lds_key) : klv_local_set :=
  set.filter (fun entry => entry.1 != tag)

/-- Modelled from the spec: ordered insertion, the new entry comes last. -/
def klv_local_set.add (set : klv_local_set) (tag : klv_lds_key) (value : klv_value) :
    klv_local_set :=
  set ++ [(tag, value)]

/-- Modelled from the spec: the fixed 16-byte universal identifier of a
packet (`klv_uds_key` of the absent `klv_key.h`). -/
abbrev klv_uds_key := List uint8_t

/-- Modelled from the spec: a packet pairs a universal key with its root
value (`klv_packet` of the absent `klv_packet.h`; the test reads the root set
as `output_klv[ 0 ].value.get< klv_local_set >()`). -/
structure klv_packet where
  key : klv_uds_key
  value : klv_value

/-- Modelled from the spec: `klv_1108_key()`, the universal key of MISB
ST 1108 (absent `klv_1108.h`); only its being one fixed key matters. -/
def klv_1108_key : klv_uds_key :=
  [0x06, 0x0E, 0x2B, 0x34, 0x02, 0x03, 0x01, 0x01, 0x0E, 0x01, 0x03, 0x03, 0x1C, 0x00, 0x00, 0x00]

/-! Tags of the ST 1108 root local set and of its nested metric local set
(enumerators of the absent `klv_1108.h` and `klv_1108_metric_set.h`, named as
in the test, numbered as in the standard). -/

/-- Modelled from the spec: tag of the Assessment Point field. -/
def KLV_1108_ASSESSMENT_POINT : klv_lds_key := 1
/-- Modelled from the spec: tag of the Metric Period Pack field. -/
def KLV_1108_METRIC_PERIOD_PACK : klv_lds_key := 2
/-- Modelled from the spec: parent tag shared by the nested metric sets. -/
def KLV_1108_METRIC_LOCAL_SET : klv_lds_key := 4
/-- Modelled from the spec: tag of the Compression Type field. -/
def KLV_1108_COMPRESSION_TYPE : klv_lds_key := 5
/-- Modelled from the spec: tag of the Compression Profile field. -/
def KLV_1108_COMPRESSION_PROFILE : klv_lds_key := 6
/-- Modelled from the spec: tag of the Compression Level field. -/
def KLV_1108_COMPRESSION_LEVEL : klv_lds_key := 7
/-- Modelled from the spec: tag of the Compression Ratio field. -/
def KLV_1108_COMPRESSION_RATIO : klv_lds_key := 8
/-- Modelled from the spec: tag of the Stream Bitrate field. -/
def KLV_1108_STREAM_BITRATE : klv_lds_key := 9
/-- Modelled from the spec: tag of the Document Version field. -/
def KLV_1108_DOCUMENT_VERSION : klv_lds_key := 10

/-- Modelled from the spec: metric set tag of the Name field. -/
def KLV_1108_METRIC_SET_NAME : klv_lds_key := 1
/-- Modelled from the spec: metric set tag of the Version field. -/
def KLV_1108_METRIC_SET_VERSION : klv_lds_key := 2
/-- Modelled from the spec: metric set tag of the Implementer field. -/
def KLV_1108_METRIC_SET_IMPLEMENTER : klv_lds_key := 3
/-- Modelled from the spec: metric set tag of the Parameters field. -/
def KLV_1108_METRIC_SET_PARAMETERS : klv_lds_key := 4
/-- Modelled from the spec: metric set tag of the Time field. -/
def KLV_1108_METRIC_SET_TIME : klv_lds_key := 5
/-- Modelled from the spec: metric set tag of the Value field. -/
def KLV_1108_METRIC_SET_VALUE : klv_lds_key := 6

/-- Modelled from the spec: enumerated code of the archive assessment point. -/
def KLV_1108_ASSESSMENT_POINT_ARCHIVE : Nat := 5
/-- Modelled from the spec: enumerated code of the H.264 compression type. -/
def KLV_1108_COMPRESSION_TYPE_H264 : Nat := 2
/-- Modelled from the spec: enumerated code of the Main compression profile. -/
def KLV_1108_COMPRESSION_PROFILE_MAIN : Nat := 1

/-- Modelled from the spec: `klv_1108_kwiver_metric_implementer()`, the fixed
string naming this software as the producer of a metric. -/
def klv_1108_kwiver_metric_implementer : klv_value := klv_value.text "KWIVER"

/-- Modelled from the spec: the assumed per-pixel bit depth of an
uncompressed frame (section 4.3 step 5 leaves the constant unnamed; 24 is the
value the expected ratio of the test scenario fixes). -/
def uncompressed_bits_per_pixel : Nat := 24

/-- Modelled from the spec: the fixed Document Version constant (3 in the
test and in section 8). -/
def klv_1108_document_version : Nat := 3

/-- Modelled from the spec: the closed sets of the standard, as the lookup
from the text of a frame's compression type and profile to their enumerated
codes. The spec names only two of its entries ("H.264" and "Main"), so the
table is a parameter of the synthesizer. -/
structure klv_1108_codes where
  compression_type : String → Nat
  compression_profile : String → Nat

/-- Modelled from the spec: the named optional fields a metadata record
exposes (section 6), with the `VITAL_META_` names of the test. -/
structure metadata_fields where
  VIDEO_DATA_STREAM_INDEX : Option ℤ
  UNIX_TIMESTAMP : Option Nat
  AVERAGE_GSD : Option ℚ
  VNIIRS : Option ℚ
  VIDEO_BITRATE : Option Nat
  VIDEO_COMPRESSION_TYPE : Option String
  VIDEO_COMPRESSION_PROFILE : Option String
  VIDEO_COMPRESSION_LEVEL : Option String
  VIDEO_FRAME_RATE : Option ℚ
  IMAGE_WIDTH : Option Nat
  IMAGE_HEIGHT : Option Nat

/-- Modelled from the spec: a metadata record is either of a type that cannot
carry packets (`kv::metadata`) or a KLV-capable record with its ordered packet
sequence (`klv_metadata`). -/
inductive metadata where
  | plain (fields : metadata_fields)
  | klv (fields : metadata_fields) (packets : List klv_packet)

/-- Modelled from the spec: `metadata_sptr`, a record or the null pointer. -/
abbrev metadata_sptr := Option metadata

/-- Modelled from the spec: `metadata_vector`, the frame sequence. -/
abbrev metadata_vector := List metadata_sptr

/-- Modelled from the spec: a record carries at least one of the input fields
of the synthesizer (section 4.3: GSD, quality index, compression
type/profile/level, bitrate, frame rate, width, height). -/
def has_synthesizer_input (md : metadata_fields) : Bool :=
  md.AVERAGE_GSD.isSome || md.VNIIRS.isSome || md.VIDEO_BITRATE.isSome ||
  md.VIDEO_COMPRESSION_TYPE.isSome || md.VIDEO_COMPRESSION_PROFILE.isSome ||
  md.VIDEO_COMPRESSION_LEVEL.isSome || md.VIDEO_FRAME_RATE.isSome ||
  md.IMAGE_WIDTH.isSome || md.IMAGE_HEIGHT.isSome

/-- Modelled from the spec: one nested metric set (section 4.3 step 3): Name,
empty Version, Implementer, empty Parameters, Value, and the Time entry the
test reads from every metric set, which holds the current time. -/
def create_1108_metric_set (name : String) (now : Nat) (value : ℚ) : klv_value :=
  klv_value.local_set
    [ (KLV_1108_METRIC_SET_NAME, klv_value.text name),
      (KLV_1108_METRIC_SET_VERSION, klv_value.text ""),
      (KLV_1108_METRIC_SET_IMPLEMENTER, klv_1108_kwiver_metric_implementer),
      (KLV_1108_METRIC_SET_PARAMETERS, klv_value.text ""),
      (KLV_1108_METRIC_SET_TIME, klv_value.uint now),
      (KLV_1108_METRIC_SET_VALUE, klv_value.real value) ]

/-- Modelled from the spec: step 2 of section 4.3, the Metric Period Pack
`{ index, round(1_000_000 / frame_rate) }`, omitted without a frame rate. -/
def period_pack_entries (index : Nat) (md : metadata_fields) : klv_local_set :=
  match md.VIDEO_FRAME_RATE with
  | some frame_rate =>
    [(KLV_1108_METRIC_PERIOD_PACK, klv_value.metric_period_pack index (round (1000000 / frame_rate)))]
  | none => []

/-- Modelled from the spec: step 3 of section 4.3, one metric set per
available quality metric, GSD first and the quality index second. -/
def metric_entries (now : Nat) (md : metadata_fields) : klv_local_set :=
  (match md.AVERAGE_GSD with
    | some gsd => [(KLV_1108_METRIC_LOCAL_SET, create_1108_metric_set "GSD" now gsd)]
    | none => []) ++
  (match md.VNIIRS with
    | some vniirs => [(KLV_1108_METRIC_LOCAL_SET, create_1108_metric_set "VNIIRS" now vniirs)]
    | none => [])

/-- Modelled from the spec: step 4 of section 4.3, Compression Type, Profile
(enumerated codes) and Level (free text) when all three are present. -/
def compression_entries (codes : klv_1108_codes) (md : metadata_fields) : klv_local_set :=
  match md.VIDEO_COMPRESSION_TYPE, md.VIDEO_COMPRESSION_PROFILE, md.VIDEO_COMPRESSION_LEVEL with
  | some type, some profile, some level =>
    [ (KLV_1108_COMPRESSION_TYPE, klv_value.enumeration (codes.compression_type type)),
      (KLV_1108_COMPRESSION_PROFILE, klv_value.enumeration (codes.compression_profile profile)),
      (KLV_1108_COMPRESSION_LEVEL, klv_value.text level) ]
  | _, _, _ => []

/-- Modelled from the spec: step 5 of section 4.3, the Compression Ratio
`(width * height * bit depth) / (bitrate / frame_rate)` when bitrate, frame
rate, width and height are all present. -/
def ratio_entries (md : metadata_fields) : klv_local_set :=
  match md.VIDEO_BITRATE, md.VIDEO_FRAME_RATE, md.IMAGE_WIDTH, md.IMAGE_HEIGHT with
  | some bitrate, some frame_rate, some width, some height =>
    [ ( KLV_1108_COMPRESSION_RATIO,
        klv_value.real
          (((width * height * uncompressed_bits_per_pixel : Nat) : ℚ) /
            ((bitrate : ℚ) / frame_rate)) ) ]
  | _, _, _, _ => []

/-- Modelled from the spec: step 6 of section 4.3, the Stream Bitrate in whole
kilobits per second (integer division by 1000), omitted without a bitrate. -/
def bitrate_entries (md : metadata_fields) : klv_local_set :=
  match md.VIDEO_BITRATE with
  | some bitrate => [(KLV_1108_STREAM_BITRATE, klv_value.uint (bitrate / 1000))]
  | none => []

/-- Modelled from the spec: the metric local-set synthesizer of section 4.3,
steps 1 to 7 in order, for the period index `index` and the current time
`now` (microseconds). -/
def create_1108_set (codes : klv_1108_codes) (now : Nat) (index : Nat) (md : metadata_fields) :
    klv_local_set :=
  [(KLV_1108_ASSESSMENT_POINT, klv_value.enumeration KLV_1108_ASSESSMENT_POINT_ARCHIVE)] ++
  period_pack_entries index md ++
  metric_entries now md ++
  compression_entries codes md ++
  ratio_entries md ++
  bitrate_entries md ++
  [(KLV_1108_DOCUMENT_VERSION, klv_value.uint klv_1108_document_version)]

/-- Modelled from the spec: the merge of section 4.4. The first packet keyed
with the ST 1108 universal key is replaced in place; when there is none the
new packet is appended to the end of the list. -/
def merge_1108_packet (packet : klv_packet) : List klv_packet → List klv_packet
  | [] => [packet]
  | old :: rest =>
    if old.key = klv_1108_key then packet :: rest else old :: merge_1108_packet packet rest

/-- Modelled from the spec: the state of one driver instance, the mapping from
stream index to the last emitted period index, 0 while unset (section 4.4). A
frame without a stream index is tracked under the absent index. -/
structure update_klv where
  last_period_index : Option ℤ → Nat

/-- Modelled from the spec: a freshly constructed driver, every counter
unset. -/
def update_klv.fresh : update_klv := { last_period_index := fun _ => 0 }

/-- Modelled from the spec: the driver on one record at the time `now`. A null
record, a record that cannot carry packets and a record without synthesizer
input pass through unchanged; for an eligible frame the stream's index is one
more than the last emitted one, the report is synthesized with it and merged
into the frame's packets, and the index is remembered. -/
def update_klv.update (codes : klv_1108_codes) (now : Nat) (self : update_klv) :
    metadata_sptr → metadata_sptr × update_klv
  | none => (none, self)
  | some (metadata.plain fields) => (some (metadata.plain fields), self)
  | some (metadata.klv fields packets) =>
    if has_synthesizer_input fields then
      let index := self.last_period_index fields.VIDEO_DATA_STREAM_INDEX + 1
      let packet : klv_packet :=
        { key := klv_1108_key,
          value := klv_value.local_set (create_1108_set codes now index fields) }
      (some (metadata.klv fields (merge_1108_packet packet packets)),
       { last_period_index :=
           Function.update self.last_period_index fields.VIDEO_DATA_STREAM_INDEX index })
    else
      (some (metadata.klv fields packets), self)

/-- Modelled from the spec: `update_klv::filter( input_metadata, nullptr )`,
the sequence transform of section 4.4: the records are processed in order,
the state is threaded through, and `clock i` is the wall-clock reading taken
for the `i`-th record of the call. The result is the output sequence and the
driver state after the call. -/
def update_klv.filter (codes : klv_1108_codes) (clock : Nat → Nat) (self : update_klv) :
    metadata_vector → metadata_vector × update_klv
  | [] => ([], self)
  | record :: rest =>
    let first := update_klv.update codes (clock 0) self record
    let others := update_klv.filter codes (fun i => clock (i + 1)) first.2 rest
    (first.1 :: others.1, others.2)

/-- The frame built by `TEST( update_klv, add_st_1108 )`, lines 81 to 92 of
the test. -/
def add_st_1108_input : metadata_fields :=
  { VIDEO_DATA_STREAM_INDEX := some 1,
    UNIX_TIMESTAMP := some 1,
    AVERAGE_GSD := some 12,
    VNIIRS := some 5,
    VIDEO_BITRATE := some 500000,
    VIDEO_COMPRESSION_TYPE := some "H.264",
    VIDEO_COMPRESSION_PROFILE := some "Main",
    VIDEO_COMPRESSION_LEVEL := some "4.1",
    VIDEO_FRAME_RATE := some 30,
    IMAGE_WIDTH := some 1280,
    IMAGE_HEIGHT := some 720 }

/-- The root local set of `expected_klv`, lines 118 to 141 of the test. -/
def add_st_1108_expected : klv_local_set :=
  [ (KLV_1108_ASSESSMENT_POINT, klv_value.enumeration KLV_1108_ASSESSMENT_POINT_ARCHIVE),
    (KLV_1108_METRIC_PERIOD_PACK, klv_value.metric_period_pack 1 33333),
    (KLV_1108_METRIC_LOCAL_SET, klv_value.local_set
      [ (KLV_1108_METRIC_SET_NAME, klv_value.text "GSD"),
        (KLV_1108_METRIC_SET_VERSION, klv_value.text ""),
        (KLV_1108_METRIC_SET_IMPLEMENTER, klv_1108_kwiver_metric_implementer),
        (KLV_1108_METRIC_SET_PARAMETERS, klv_value.text ""),
        (KLV_1108_METRIC_SET_VALUE, klv_value.real 12) ]),
    (KLV_1108_METRIC_LOCAL_SET, klv_value.local_set
      [ (KLV_1108_METRIC_SET_NAME, klv_value.text "VNIIRS"),
        (KLV_1108_METRIC_SET_VERSION, klv_value.text ""),
        (KLV_1108_METRIC_SET_IMPLEMENTER, klv_1108_kwiver_metric_implementer),
        (KLV_1108_METRIC_SET_PARAMETERS, klv_value.text ""),
        (KLV_1108_METRIC_SET_VALUE, klv_value.real 5) ]),
    (KLV_1108_COMPRESSION_TYPE, klv_value.enumeration KLV_1108_COMPRESSION_TYPE_H264),
    (KLV_1108_COMPRESSION_PROFILE, klv_value.enumeration KLV_1108_COMPRESSION_PROFILE_MAIN),
    (KLV_1108_COMPRESSION_LEVEL, klv_value.text "4.1"),
    ( KLV_1108_COMPRESSION_RATIO, klv_value.real 1327.104),
    (KLV_1108_STREAM_BITRATE, klv_value.uint 500),
    (KLV_1108_DOCUMENT_VERSION, klv_value.uint 3) ]

/-- The loop of lines 102 to 116 of the test: the Time entry is erased from
every nested metric set of a root set. -/
def erase_metric_times (set : klv_local_set) : klv_local_set :=
  set.map fun entry =>
    match entry with
    | (tag, klv_value.local_set metric_set) =>
      if tag = KLV_1108_METRIC_LOCAL_SET then
        (tag, klv_value.local_set (klv_local_set.erase metric_set KLV_1108_METRIC_SET_TIME))
      else (tag, klv_value.local_set metric_set)
    | other => other

/-- The assertion of line 105 of the test on one entry of
`all_at( KLV_1108_METRIC_LOCAL_SET )`: the entry is a local set with exactly
one Time entry. -/
def has_one_time (entry : klv_lds_key × klv_value) : Prop :=
  ∃ metric_set, entry.2 = klv_value.local_set metric_set ∧
    klv_local_set.count metric_set KLV_1108_METRIC_SET_TIME = 1

/-- A record that is null or of a type that cannot carry packets. -/
def cannot_carry_klv : metadata_sptr → Prop
  | none => True
  | some (metadata.plain _) => True
  | some (metadata.klv _ _) => False

/-- A code table with the two entries the spec names. -/
def sample_codes : klv_1108_codes :=
  { compression_type := fun name => if name = "H.264" then KLV_1108_COMPRESSION_TYPE_H264 else 0,
    compression_profile := fun name =>
      if name = "Main" then KLV_1108_COMPRESSION_PROFILE_MAIN else 0 }

/-- A record without any field. -/
def no_fields : metadata_fields :=
  { VIDEO_DATA_STREAM_INDEX := none, UNIX_TIMESTAMP := none, AVERAGE_GSD := none,
    VNIIRS := none, VIDEO_BITRATE := none, VIDEO_COMPRESSION_TYPE := none,
    VIDEO_COMPRESSION_PROFILE := none, VIDEO_COMPRESSION_LEVEL := none,
    VIDEO_FRAME_RATE := none, IMAGE_WIDTH := none, IMAGE_HEIGHT := none }

/-- The two records of `TEST( update_klv, non_klv_metadata_sptr )`. -/
def non_klv_input : metadata_vector :=
  [ some (metadata.plain { no_fields with UNIX_TIMESTAMP := some 0, AVERAGE_GSD := some 12 }),
    some (metadata.plain { no_fields with UNIX_TIMESTAMP := some 1 }) ]

/-- A packet list with an unrelated packet before and after an ST 1108
packet. -/
def sample_packets : List klv_packet :=
  [ { key := [1], value := klv_value.uint 7 },
    { key := klv_1108_key, value := klv_value.local_set [] },
    { key := [2], value := klv_value.text "other" } ]

end kwiver.arrows.klv

namespace kwiver.vital

/-! ## String helpers of `vital/util/string.h`

A `std::string` is a sequence of `char` that may hold the NUL character; a
`const char*` denotes the characters before the first NUL. Arithmetic on
values of type `int` is that of 32-bit two's complement (`to_int`). -/

/-- The type `std::string`. -/
abbrev std_string := List Char

/-- The NUL character, terminator of a C string. -/
def NUL : Char := Char.ofNat 0

/-- The characters a `const char*` obtained from the sequence denotes, as read
by `operator<<( std::ostream&, const char* )`, `strcpy` and the constructor
`std::string( const char* )`: those before the first NUL. For a string `s`,
`s.c_str()` points to the characters of `s` followed by a NUL. -/
def c_string (s : List Char) : std_string := s.takeWhile (fun c => c != NUL)

/-- Algorithm `std::copy( first, last, std::ostream_iterator< std::string >( os, delim ) )`:
each element is streamed to `os`, followed by the C string `delim`. -/
def copy_to_ostream (delim : List Char) : std_string → List std_string → std_string
  | os, [] => os
  | os, element :: rest => copy_to_ostream delim (os ++ element ++ c_string delim) rest

/-- Function `join( elements, str_separator )`:
```
const char* const separator = str_separator.c_str();
switch (elements.size())
{
case 0: return "";
case 1: return elements[0];
default:
  std::ostringstream os;
  std::copy(elements.begin(), elements.end()-1,
            std::ostream_iterator<std::string>(os, separator));
  os << *elements.rbegin();
  return os.str();
}
``` -/
def join (elements : List std_string) (str_separator : std_string) : std_string :=
  let separator := str_separator
  match elements with
  | [] => []
  | [only] => only
  | first :: second :: rest =>
    let os := copy_to_ostream separator [] (first :: second :: rest).dropLast
    os ++ (first :: second :: rest).getLast (List.cons_ne_nil _ _)

/-- The order `std::char_traits< char >` and `std::string::compare` use on
two character sequences: the sign of the first differing pair, and for a
sequence that is the start of the other the sign of the length difference. -/
def compare_chars : List Char → List Char → ℤ
  | [], [] => 0
  | [], _ :: _ => -1
  | _ :: _, [] => 1
  | a :: as, b :: bs => if a < b then -1 else if b < a then 1 else compare_chars as bs

/-- Member `std::string::compare( pos, len, str )`: compares the substring of
at most `len` characters that starts at `pos` with `str` (for `pos` within
the string, which is the only use here). -/
def std_string_compare (self : std_string) (pos len : Nat) (str : std_string) : ℤ :=
  compare_chars ((self.drop pos).take len) str

/-- Function `starts_with( input, pattern )`:
`return (0 == input.compare( 0, pattern.size(), pattern ) );` -/
def starts_with (input pattern : std_string) : Bool :=
  decide (0 = std_string_compare input 0 pattern.length pattern)

/-- The largest value of the type `int`. -/
def INT_MAX : ℤ := 2147483647

/-- A value brought into the range of the 32-bit type `int`: the conversion
`(int)` of a `size_t`, and the two's-complement result of `int` arithmetic
that leaves the range. -/
def to_int (x : ℤ) : ℤ := (x + 2147483648) % 4294967296 - 2147483648

/-- Expression `new char[n]` for an `int n`: an array of `n` cells of
indeterminate content `junk`, an array without cells for `n = 0`; a negative
`n` makes the expression throw (`none`). -/
def new_char_array (n : ℤ) (junk : Char) : Option (List Char) :=
  if n < 0 then none else some (List.replicate n.toNat junk)

/-- Stores the characters `src` one after another from the first cell of the
array `buf` on. The result is the array after the stores and the number of
characters stored past its last cell, which is the size of the buffer
overflow. -/
def store_chars (buf src : List Char) : List Char × Nat :=
  (src.take buf.length ++ buf.drop src.length, src.length - buf.length)

/-- Function `strcpy( dest, src )`: copies the C string and its terminator,
whatever the size of `dest`. -/
def strcpy (dest : List Char) (src : List Char) : List Char × Nat :=
  store_chars dest (c_string src ++ [NUL])

/-- The C library function `vsnprintf( buf, n, fmt, ap )`, for a format and
arguments whose complete formatted text is `output` (`none` when the
formatter reports an error): with `n > 0` it stores at most `n - 1` characters
of the text followed by NUL, never more than `n` characters, and it returns
the length of the complete text, or a negative value on error or when that
length is not an `int`. -/
def vsnprintf (output : Option std_string) (buf : List Char) (n : ℤ) : List Char × ℤ :=
  match output with
  | none => (buf, -1)
  | some text =>
    (if 0 < n then (store_chars buf (text.take (n.toNat - 1) ++ [NUL])).1 else buf,
     if (text.length : ℤ) ≤ INT_MAX then (text.length : ℤ) else -1)

/-- What a call of `string_format` does: it returns `value` after `attempts`
formatting attempts, having stored `overrun` characters past the end of its
arrays on the way, or it leaves with the exception of a `new char[n]` of
negative size. -/
inductive format_outcome where
  | returned (value : std_string) (attempts : Nat) (overrun : Nat)
  | bad_array_new_length (attempts : Nat)
deriving DecidableEq, Repr

/-- The `while ( 1 )` loop of `string_format`, run for at most `fuel` rounds:
```
formatted.reset( new char[n] );
strcpy( &formatted[0], fmt_str.c_str() );
final_n = vsnprintf( &formatted[0], n, fmt_str.c_str(), ap );
if ( ( final_n < 0 ) || ( final_n >= n ) ) n += abs( final_n - n + 1 );
else break;
```
followed by `return std::string( formatted.get() );`. The arithmetic is that
of `int`. The result is `none` when the fuel runs out first. -/
def string_format_loop (fmt_str : std_string) (output : Option std_string) (junk : Char) :
    Nat → ℤ → Nat → Nat → Option format_outcome
  | 0, _, _, _ => none
  | fuel + 1, n, attempts, overrun =>
    match new_char_array n junk with
    | none => some (format_outcome.bad_array_new_length attempts)
    | some cells =>
      let formatted := strcpy cells fmt_str
      let result := vsnprintf output formatted.1 n
      let final_n := result.2
      if final_n < 0 ∨ final_n ≥ n then
        string_format_loop fmt_str output junk fuel
          (to_int (n + to_int |to_int (to_int (final_n - n) + 1)|))
          (attempts + 1) (overrun + formatted.2)
      else
        some (format_outcome.returned (c_string result.1) (attempts + 1)
          (overrun + formatted.2))

/-- Function `string_format( fmt_str, ... )`: the loop started with
`n = ( (int)fmt_str.size() ) * 2`. -/
def string_format (fuel : Nat) (fmt_str : std_string) (output : Option std_string)
    (junk : Char) : Option format_outcome :=
  string_format_loop fmt_str output junk fuel (to_int (to_int (fmt_str.length : ℤ) * 2)) 0 0

/-! ## Structure-from-motion constraints of `vital/types/sfm_constraints.cxx`

The headers that declare `metadata_map`, `geo_point` and `local_geo_cs` are
not among the sources: of each only the members the code calls are kept, and
what they return is taken as given. A `double` is an exact rational. A C++
function that returns `bool` and fills an output argument returns the pair of
the boolean and the argument's value after the call. -/

/-- The type `frame_id_t`, a signed 64-bit frame number. -/
abbrev frame_id_t := ℤ

/-- The container `std::map< frame_id_t, V >`, as the sequence of its entries
in iteration order, which is the ascending order of the keys. -/
abbrev std_map (V : Type) := List (frame_id_t × V)

/-- The class invariant of `std::map`: keys are strictly ascending. -/
def map_ordered {V : Type} (m : std_map V) : Prop := m.Pairwise (fun a b => a.1 < b.1)

/-- Member `std::map::find( key )`: the entry of the key, `none` for `end()`. -/
def map_find {V : Type} (m : std_map V) (key : frame_id_t) : Option (frame_id_t × V) :=
  m.find? (fun entry => entry.1 == key)

/-- Statement `m[ key ] = value` on a `std::map`: the entry of the key is
replaced, or a new entry is put at the key's place in the order. -/
def map_assign {V : Type} : std_map V → frame_id_t → V → std_map V
  | [], key, value => [(key, value)]
  | entry :: rest, key, value =>
    if key < entry.1 then (key, value) :: entry :: rest
    else if key = entry.1 then (key, value) :: rest
    else entry :: map_assign rest key value

/-- The struct `sfm_constraints::priv::im_data`. -/
structure im_data where
  width : ℤ
  height : ℤ
deriving DecidableEq, Repr

/-- The type `vector_2d`. -/
abbrev vector_2d := ℚ × ℚ

/-- The type `vector_3d`. -/
abbrev vector_3d := ℚ × ℚ × ℚ

/-- The absent class `geo_point`, by the members the code calls: `is_empty()`,
`crs()`, `location()` and the conversion `location( crs )`. -/
structure geo_point where
  is_empty : Bool
  crs : ℤ
  location : vector_2d
  location_in : ℤ → vector_2d

/-- The absent class `local_geo_cs`, by the members the code calls:
`origin()` and `origin_altitude()`. -/
structure local_geo_cs where
  origin : geo_point
  origin_altitude : ℚ

/-- The absent class `metadata_map`, by the members the code calls:
`metadata()`, of which only the keys are read (in ascending order),
`frames()` (an ascending `std::set`), and the per-frame getters, each giving
the value it stores when it returns true. -/
structure metadata_map where
  metadata : List frame_id_t
  frames : List frame_id_t
  get_sensor_location : frame_id_t → Option geo_point
  get_sensor_altitude : frame_id_t → Option ℚ
  get_horizontal_field_of_view : frame_id_t → Option ℚ
  get_target_width : frame_id_t → Option ℚ
  get_slant_range : frame_id_t → Option ℚ

/-- The C library function `tan` and the conversion `static_cast< float >`,
taken as given. -/
structure real_functions where
  tan : ℚ → ℚ
  to_float : ℚ → ℚ

/-- The macro `M_PI` of the source. -/
def M_PI : ℚ := 3.141592653589793238462643383279502884197169399375105820974944592307816406

/-- The macro `DEG_TO_RAD`, `(M_PI/180.0)`. -/
def DEG_TO_RAD : ℚ := M_PI / 180

/-- The class `sfm_constraints`, by the members of its `priv`: the metadata
map pointer `m_md` (`none` when null), `m_lgcs` and `m_image_data`. -/
structure sfm_constraints where
  m_md : Option metadata_map
  m_lgcs : local_geo_cs
  m_image_data : std_map im_data

/-- Method `sfm_constraints::store_image_size( fid, image_width, image_height )`:
`m_priv->m_image_data[fid] = priv::im_data(image_width, image_height);` -/
def sfm_constraints.store_image_size (self : sfm_constraints) (fid : frame_id_t)
    (image_width image_height : ℤ) : sfm_constraints :=
  { self with
    m_image_data :=
      map_assign self.m_image_data fid { width := image_width, height := image_height } }

/-- Method `sfm_constraints::get_image_height( fid, image_height )`. -/
def sfm_constraints.get_image_height (self : sfm_constraints) (fid : frame_id_t)
    (image_height : ℤ) : Bool × ℤ :=
  if fid ≥ 0 then
    match map_find self.m_image_data fid with
    | none => (false, image_height)
    | some data_it => (true, data_it.2.height)
  else
    match self.m_image_data with
    | [] => (false, image_height)
    | begin_ :: _ => (true, begin_.2.height)

/-- Method `sfm_constraints::get_image_width( fid, image_width )`. -/
def sfm_constraints.get_image_width (self : sfm_constraints) (fid : frame_id_t)
    (image_width : ℤ) : Bool × ℤ :=
  if fid ≥ 0 then
    match map_find self.m_image_data fid with
    | none => (false, image_width)
    | some data_it => (true, data_it.2.width)
  else
    match self.m_image_data with
    | [] => (false, image_width)
    | begin_ :: _ => (true, begin_.2.width)

/-- The `for (auto test_fid : frame_ids_to_try)` loop of
`get_focal_length_prior` and the `return false` after it. -/
def focal_length_loop (fns : real_functions) (md : metadata_map) (image_width : ℤ) :
    List frame_id_t → ℚ → Bool × ℚ
  | [], focal_length => (false, focal_length)
  | test_fid :: rest, focal_length =>
    match md.get_horizontal_field_of_view test_fid with
    | some hfov =>
      (true, fns.to_float (((image_width : ℚ) * 0.5) / fns.tan (0.5 * hfov * DEG_TO_RAD)))
    | none =>
      match md.get_target_width test_fid, md.get_slant_range test_fid with
      | some target_width, some slant_range =>
        (true, fns.to_float ((image_width : ℚ) * slant_range / target_width))
      | _, _ => focal_length_loop fns md image_width rest focal_length

/-- Method `sfm_constraints::get_focal_length_prior( fid, focal_length )`. -/
def sfm_constraints.get_focal_length_prior (fns : real_functions) (self : sfm_constraints)
    (fid : frame_id_t) (focal_length : ℚ) : Bool × ℚ :=
  match self.m_md with
  | none => (false, focal_length)
  | some md =>
    let image_width := self.get_image_width fid (-1)
    if !image_width.1 then (false, focal_length)
    else
      let frame_ids_to_try := if fid ≥ 0 then [fid] else md.frames
      focal_length_loop fns md image_width.2 frame_ids_to_try focal_length

/-- Method `sfm_constraints::get_camera_position_prior_local( fid, pos_loc )`. -/
def sfm_constraints.get_camera_position_prior_local (self : sfm_constraints)
    (fid : frame_id_t) (pos_loc : vector_3d) : Bool × vector_3d :=
  if self.m_lgcs.origin.is_empty then (false, pos_loc)
  else
    match self.m_md with
    | none => (false, pos_loc)
    | some md =>
      match md.get_sensor_location fid, md.get_sensor_altitude fid with
      | some gloc, some alt =>
        let geo_origin := self.m_lgcs.origin
        let loc := gloc.location_in geo_origin.crs
        let loc : vector_2d := (loc.1 - geo_origin.location.1, loc.2 - geo_origin.location.2)
        let alt := alt - self.m_lgcs.origin_altitude
        (true, (loc.1, loc.2, alt))
      | _, _ => (false, pos_loc)

/-- The `for (auto mdv : md)` loop of `get_camera_position_priors`, over the
keys of the metadata in ascending order; `junk` is the indeterminate content
of the local `vector_3d loc`, and `local_positions.crbegin()` is the last
entry of the map. -/
def position_priors_loop (self : sfm_constraints) (junk : vector_3d) :
    List frame_id_t → std_map vector_3d → std_map vector_3d
  | [], local_positions => local_positions
  | fid :: rest, local_positions =>
    let loc := self.get_camera_position_prior_local fid junk
    if !loc.1 then position_priors_loop self junk rest local_positions
    else if h : local_positions = [] then
      position_priors_loop self junk rest (map_assign local_positions fid loc.2)
    else
      let last_loc := (local_positions.getLast h).2
      if loc.2 = last_loc then position_priors_loop self junk rest local_positions
      else position_priors_loop self junk rest (map_assign local_positions fid loc.2)

/-- Method `sfm_constraints::get_camera_position_priors()`. The result is
`none` when `m_md` is null, which the code dereferences. -/
def sfm_constraints.get_camera_position_priors (self : sfm_constraints) (junk : vector_3d) :
    Option (std_map vector_3d) :=
  match self.m_md with
  | none => none
  | some md => some (position_priors_loop self junk md.metadata [])

/-- The positions `get_camera_position_priors` keeps among the frames `fids`
when the position of the most recently included frame is `last`: a frame is
kept when its local position prior exists and differs from `last`. -/
def kept_positions (self : sfm_constraints) (junk : vector_3d) :
    Option vector_3d → List frame_id_t → std_map vector_3d
  | _, [] => []
  | last, fid :: rest =>
    let loc := self.get_camera_position_prior_local fid junk
    if loc.1 then
      if last = some loc.2 then kept_positions self junk last rest
      else (fid, loc.2) :: kept_positions self junk (some loc.2) rest
    else kept_positions self junk last rest

/-- A constraints object without metadata map and without image sizes. -/
def empty_constraints : sfm_constraints :=
  { m_md := none,
    m_lgcs := { origin := { is_empty := true, crs := 0, location := (0, 0),
                            location_in := fun _ => (0, 0) },
                origin_altitude := 0 },
    m_image_data := [] }

/-- A constraints object after three calls of `store_image_size`, for the
frames 7, 3 and again 7. -/
def sized_constraints : sfm_constraints :=
  ((empty_constraints.store_image_size 7 640 480).store_image_size 3 1280 720).store_image_size
    7 1920 1080

/-- A metadata map of the frames 1, 3 and 7 in which frame 3 has a horizontal
field of view and frame 7 a target width and a slant range. -/
def sample_metadata_map : metadata_map :=
  { metadata := [1, 3, 7],
    frames := [1, 3, 7],
    get_sensor_location := fun _ => none,
    get_sensor_altitude := fun _ => none,
    get_horizontal_field_of_view := fun fid => if fid = 3 then some 60 else none,
    get_target_width := fun fid => if fid = 7 then some 100 else none,
    get_slant_range := fun fid => if fid = 7 then some 2000 else none }

/-- Stand-ins for `tan` and the conversion to `float` in concrete examples. -/
def sample_functions : real_functions := { tan := fun x => x, to_float := fun x => x }

/-- A sensor location whose coordinates are `(x, y)` in every reference
system. -/
def sample_location (x y : ℚ) : geo_point :=
  { is_empty := false, crs := 4326, location := (x, y), location_in := fun _ => (x, y) }

/-- The metadata of the frames 1, 2, 4 and 6: the frames 1 and 2 share one
sensor position, frame 4 has no altitude and frame 6 has another position. -/
def positioned_metadata : metadata_map :=
  { metadata := [1, 2, 4, 6],
    frames := [1, 2, 4, 6],
    get_sensor_location := fun fid =>
      if fid = 6 then some (sample_location 13 24) else some (sample_location 11 22),
    get_sensor_altitude := fun fid => if fid = 4 then none else some 150,
    get_horizontal_field_of_view := fun _ => none,
    get_target_width := fun _ => none,
    get_slant_range := fun _ => none }

/-- A constraints object with a local origin at `(10, 20)`, altitude 100, and
the metadata `positioned_metadata`. -/
def positioned_constraints : sfm_constraints :=
  { m_md := some positioned_metadata,
    m_lgcs := { origin := sample_location 10 20, origin_altitude := 100 },
    m_image_data := [] }

end kwiver.vital

namespace kwiver.arrows.klv

/-! ## Lemmas on the memory primitives -/

theorem std_copy_snd (bs : klv_bytes_t) (mem : memory) (d : Nat) :
    (std_copy bs mem d).2 = d + bs.length := by
  induction bs generalizing mem d with
  | nil => simp [std_copy]
  | cons b rest ih => simp [std_copy, ih]; omega

theorem std_copy_outside (bs : klv_bytes_t) (mem : memory) (d a : Nat)
    (h : a < d ∨ d + bs.length ≤ a) : (std_copy bs mem d).1 a = mem a := by
  induction bs generalizing mem d with
  | nil => simp [std_copy]
  | cons b rest ih =>
    simp only [std_copy, List.length_cons] at h ⊢
    rw [ih]
    · have : a ≠ d := by omega
      simp [Function.update, this]
    · omega

theorem std_copy_inside (bs : klv_bytes_t) (mem : memory) (d i : Nat) (h : i < bs.length) :
    (std_copy bs mem d).1 (d + i) = bs.get ⟨i, h⟩ := by
  induction bs generalizing mem d i with
  | nil => simp at h
  | cons b rest ih =>
    cases i with
    | zero =>
      simp only [std_copy, Nat.add_zero]
      rw [std_copy_outside _ _ _ _ (Or.inl (Nat.lt_succ_self d))]
      simp
    | succ j =>
      simp only [std_copy]
      have hj : j < rest.length := by simpa using h
      have := ih (Function.update mem d b) (d + 1) j hj
      rw [show d + (j + 1) = d + 1 + j by omega, this]
      simp

theorem bytes_from_range_length (mem : memory) (b e : Nat) :
    (bytes_from_range mem b e).length = e - b := by
  simp [bytes_from_range]

theorem bytes_from_range_of_holds (mem : memory) (d : Nat) (bs : klv_bytes_t)
    (h : ∀ i (hi : i < bs.length), mem (d + i) = bs.get ⟨i, hi⟩) :
    bytes_from_range mem d (d + bs.length) = bs := by
  apply List.ext_get
  · simp [bytes_from_range]
  · intro i h1 h2
    simp [bytes_from_range, h i h2]

/-! ## Blob codec: claims -/

/-- C1. Blob round trip: whenever `max_length` is at least the blob's byte
length, `klv_write_blob` succeeds, and `klv_read_blob` started at the original
write position with the blob's byte length returns exactly the blob (every
address of the flat memory is writable, so each cursor has the room the blob
needs). -/
theorem klv_blob_round_trip (b : klv_blob) (mem : memory) (data max_length : Nat)
    (hmax : klv_blob_length b ≤ max_length) :
    (klv_write_blob b mem data max_length).1 = Except.ok () ∧
    (klv_read_blob (klv_write_blob b mem data max_length).2.1 data (klv_blob_length b)).1
      = Except.ok b := by
  have hlt : ¬ max_length < b.deref.length := by
    simpa [klv_blob_length] using Nat.not_lt.mpr hmax
  refine ⟨by simp [klv_write_blob, hlt], ?_⟩
  simp only [klv_write_blob, hlt, if_false, klv_read_blob, klv_blob_length]
  have h := bytes_from_range_of_holds (std_copy b.deref mem data).1 data b.deref
    (fun i hi => std_copy_inside b.deref mem data i hi)
  rw [h]
  rfl

/-- Witness of C1: a three-byte blob written at address 5 with `max_length` 4. -/
theorem klv_blob_round_trip_witness :
    (klv_write_blob { bytes := [1, 2, 3] } zero_memory 5 4).1 = Except.ok () ∧
    (klv_read_blob (klv_write_blob { bytes := [1, 2, 3] } zero_memory 5 4).2.1 5
      (klv_blob_length { bytes := [1, 2, 3] })).1 = Except.ok { bytes := [1, 2, 3] } :=
  klv_blob_round_trip { bytes := [1, 2, 3] } zero_memory 5 4 (by decide)

/-- C2. For every blob, cursor and `max_length`, `klv_write_blob` fails with
the buffer-overflow exception if and only if the blob's byte length exceeds
`max_length` (it raises no other exception), and whenever it fails the cursor
is where it was before the call. -/
theorem klv_write_blob_overflow_iff (b : klv_blob) (mem : memory) (data max_length : Nat) :
    ((∃ what, (klv_write_blob b mem data max_length).1
        = Except.error (vital_exception.metadata_buffer_overflow what))
      ↔ max_length < klv_blob_length b) ∧
    (∀ e, (klv_write_blob b mem data max_length).1 = Except.error e →
      (∃ what, e = vital_exception.metadata_buffer_overflow what) ∧
      (klv_write_blob b mem data max_length).2.2 = data) := by
  unfold klv_write_blob klv_blob_length
  by_cases h : max_length < b.deref.length
  · rw [if_pos h]
    refine ⟨⟨fun _ => h, fun _ => ⟨_, rfl⟩⟩, ?_⟩
    intro e _
    cases e with
    | metadata_buffer_overflow w => exact ⟨⟨w, rfl⟩, rfl⟩
  · rw [if_neg h]
    refine ⟨⟨?_, fun hf => absurd hf h⟩, ?_⟩
    · rintro ⟨w, hw⟩
      cases hw
    · intro e he
      cases he

/-- C3, counterexample. A source buffer of two bytes `[1, 2]` occupies the
addresses 0 and 1; the cell after it holds 7. Asked for three bytes at the
start of the source, `klv_read_blob` raises nothing: it returns a blob whose
third byte is the cell beyond the end of the source. -/
theorem klv_read_blob_reads_past_end :
    holds_at (memory_of 0 [1, 2] 7) 0 [1, 2] ∧ 0 + 2 < 0 + 3 ∧
    klv_read_blob (memory_of 0 [1, 2] 7) 0 3 = (Except.ok { bytes := [1, 2, 7] }, 3) :=
  ⟨by decide, by decide, rfl⟩

/-- C3, amended. `klv_read_blob` takes no end of source and performs no bound
check: for every cursor and length it raises no exception and returns the
`length` bytes stored from the cursor onwards, advancing the cursor by
`length`; whenever at least `length` bytes remain before the end `last` of the
source, every byte of the returned blob is read from an address before
`last`. -/
theorem klv_read_blob_unchecked (mem : memory) (data length : Nat) :
    ∃ blob : klv_blob,
      klv_read_blob mem data length = (Except.ok blob, data + length) ∧
      klv_blob_length blob = length ∧
      holds_at mem data blob.bytes ∧
      (∀ last, data + length ≤ last → ∀ i, i < klv_blob_length blob → data + i < last) := by
  refine ⟨{ bytes := bytes_from_range mem data (data + length) }, rfl, ?_, ?_, ?_⟩
  · simp [klv_blob_length, klv_blob.deref, bytes_from_range]
  · intro i hi
    simp [bytes_from_range]
  · intro last hlast i hi
    have : klv_blob_length { bytes := bytes_from_range mem data (data + length) } = length := by
      simp [klv_blob_length, klv_blob.deref, bytes_from_range]
    omega

/-- C4. When the source buffer `src`, laid out at address `first`, still has
at least `length` bytes at the cursor, `klv_read_blob` returns the blob made of
exactly those `length` source bytes in order, its byte length is `length`, and
the cursor has advanced by exactly `length`. -/
theorem klv_read_blob_exact (mem : memory) (src : klv_bytes_t) (first data length : Nat)
    (hsrc : holds_at mem first src) (hpos : first ≤ data)
    (hlen : data + length ≤ first + src.length) :
    klv_read_blob mem data length
      = (Except.ok { bytes := (src.drop (data - first)).take length }, data + length) ∧
    klv_blob_length { bytes := (src.drop (data - first)).take length } = length := by
  have hl : ((src.drop (data - first)).take length).length = length := by
    simp only [List.length_take, List.length_drop]
    omega
  refine ⟨?_, by simpa [klv_blob_length, klv_blob.deref] using hl⟩
  simp only [klv_read_blob, Prod.mk.injEq, Except.ok.injEq, klv_blob.mk.injEq, and_true]
  apply List.ext_get
  · rw [bytes_from_range_length, hl]; omega
  · intro i h1 h2
    have hi : i < length := by rw [hl] at h2; exact h2
    have hidx : data - first + i < src.length := by omega
    have hm := hsrc (data - first + i) hidx
    have hadd : first + (data - first + i) = data + i := by omega
    rw [hadd] at hm
    simp only [bytes_from_range, List.get_eq_getElem, List.getElem_map, List.getElem_range,
      List.getElem_take, List.getElem_drop] at hm ⊢
    exact hm

/-- Witness of C4: reading two bytes at offset 1 of a four-byte source. -/
theorem klv_read_blob_exact_witness :
    klv_read_blob (memory_of 10 [4, 5, 6, 7] 0) 11 2
      = (Except.ok { bytes := (([4, 5, 6, 7] : klv_bytes_t).drop (11 - 10)).take 2 }, 11 + 2) ∧
    klv_blob_length { bytes := (([4, 5, 6, 7] : klv_bytes_t).drop (11 - 10)).take 2 } = 2 :=
  klv_read_blob_exact (memory_of 10 [4, 5, 6, 7] 0) [4, 5, 6, 7] 10 11 2
    (by decide) (by decide) (by decide)

/-- C5. `klv_blob_length` is the number of bytes the blob holds: 0 for a
default-constructed blob and the length of the byte sequence for a blob
constructed from one; and every successful `klv_write_blob` advances the
cursor by exactly `klv_blob_length` of the blob written. -/
theorem klv_blob_length_spec :
    klv_blob_length klv_blob.default_constructed = 0 ∧
    (∀ bytes : klv_bytes_t, klv_blob_length { bytes := bytes } = bytes.length) ∧
    (∀ (value : klv_blob) (mem : memory) (data max_length : Nat),
      (klv_write_blob value mem data max_length).1 = Except.ok () →
      (klv_write_blob value mem data max_length).2.2 = data + klv_blob_length value) := by
  refine ⟨rfl, fun _ => rfl, ?_⟩
  intro value mem data max_length
  unfold klv_write_blob klv_blob_length
  by_cases h : max_length < value.deref.length
  · simp [h]
  · simp only [h, if_false]
    intro _
    exact std_copy_snd _ _ _

/-- C6. `klv_write_blob` writes all of the blob or nothing. On success the
cells `data .. data + klv_blob_length value - 1` hold the blob's bytes in
order, every other cell is unchanged, and in particular every cell at offset
`max_length` or beyond from the original cursor is unchanged. On failure no
cell is modified. -/
theorem klv_write_blob_all_or_nothing (value : klv_blob) (mem : memory)
    (data max_length : Nat) :
    ((klv_write_blob value mem data max_length).1 = Except.ok () →
      holds_at (klv_write_blob value mem data max_length).2.1 data value.bytes ∧
      (∀ a, a < data ∨ data + klv_blob_length value ≤ a →
        (klv_write_blob value mem data max_length).2.1 a = mem a) ∧
      (∀ a, data + max_length ≤ a →
        (klv_write_blob value mem data max_length).2.1 a = mem a)) ∧
    ((klv_write_blob value mem data max_length).1 ≠ Except.ok () →
      (klv_write_blob value mem data max_length).2.1 = mem) := by
  unfold klv_write_blob klv_blob_length
  by_cases h : max_length < value.deref.length
  · simp [h]
  · simp only [h, if_false, ne_eq, not_true_eq_false, false_implies, and_true, forall_const]
    refine ⟨fun i hi => std_copy_inside value.deref mem data i hi,
      fun a ha => std_copy_outside _ _ _ _ ha, fun a ha => std_copy_outside _ _ _ _ ?_⟩
    right
    have := Nat.le_of_not_lt h
    omega

/-! ## Update driver: claims -/

theorem filter_nil (codes : klv_1108_codes) (clock : Nat → Nat) (self : update_klv) :
    update_klv.filter codes clock self [] = ([], self) := rfl

theorem filter_cons (codes : klv_1108_codes) (clock : Nat → Nat) (self : update_klv)
    (record : metadata_sptr) (rest : metadata_vector) :
    update_klv.filter codes clock self (record :: rest)
      = ((update_klv.update codes (clock 0) self record).1 ::
          (update_klv.filter codes (fun i => clock (i + 1))
            (update_klv.update codes (clock 0) self record).2 rest).1,
         (update_klv.filter codes (fun i => clock (i + 1))
            (update_klv.update codes (clock 0) self record).2 rest).2) := rfl

theorem update_passes (codes : klv_1108_codes) (now : Nat) (self : update_klv)
    (record : metadata_sptr) (h : cannot_carry_klv record) :
    update_klv.update codes now self record = (record, self) := by
  cases record with
  | none => rfl
  | some md =>
    cases md with
    | plain fields => rfl
    | klv fields packets => exact absurd h (by simp [cannot_carry_klv])

theorem update_eligible (codes : klv_1108_codes) (now : Nat) (self : update_klv)
    (fields : metadata_fields) (packets : List klv_packet)
    (h : has_synthesizer_input fields = true) :
    update_klv.update codes now self (some (metadata.klv fields packets))
      = (some (metadata.klv fields
          (merge_1108_packet
            { key := klv_1108_key,
              value := klv_value.local_set
                (create_1108_set codes now
                  (self.last_period_index fields.VIDEO_DATA_STREAM_INDEX + 1) fields) }
            packets)),
         { last_period_index :=
             Function.update self.last_period_index fields.VIDEO_DATA_STREAM_INDEX
               (self.last_period_index fields.VIDEO_DATA_STREAM_INDEX + 1) }) := by
  simp [update_klv.update, h]

/-- C7. Driver synthesis scenario: whatever the clock, and for every code
table that maps "H.264" and "Main" to their ST 1108 codes, a fresh driver
given the single KLV-capable frame of the scenario (no packets yet) returns
one record carrying exactly one packet, keyed with the ST 1108 universal key;
each nested metric set of its root set has exactly one Time entry, and once
those are erased the root set equals the expected set, entry by entry in
order. -/
theorem update_klv_add_st_1108 (codes : klv_1108_codes) (clock : Nat → Nat)
    (htype : codes.compression_type "H.264" = KLV_1108_COMPRESSION_TYPE_H264)
    (hprofile : codes.compression_profile "Main" = KLV_1108_COMPRESSION_PROFILE_MAIN) :
    ∃ root : klv_local_set,
      (update_klv.filter codes clock update_klv.fresh
          [some (metadata.klv add_st_1108_input [])]).1
        = [some (metadata.klv add_st_1108_input
            [{ key := klv_1108_key, value := klv_value.local_set root }])] ∧
      (∀ entry ∈ klv_local_set.all_at root KLV_1108_METRIC_LOCAL_SET, has_one_time entry) ∧
      erase_metric_times root = add_st_1108_expected := by
  have helig : has_synthesizer_input add_st_1108_input = true := by
    simp [has_synthesizer_input, add_st_1108_input]
  refine ⟨create_1108_set codes (clock 0) 1 add_st_1108_input, ?_, ?_, ?_⟩
  · rw [filter_cons, filter_nil, update_eligible _ _ _ _ _ helig]
    simp [merge_1108_packet, update_klv.fresh]
  · intro entry hentry
    simp [klv_local_set.all_at, create_1108_set, period_pack_entries, metric_entries,
      compression_entries, ratio_entries, bitrate_entries, add_st_1108_input,
      KLV_1108_METRIC_LOCAL_SET, KLV_1108_ASSESSMENT_POINT, KLV_1108_METRIC_PERIOD_PACK,
      KLV_1108_COMPRESSION_TYPE, KLV_1108_COMPRESSION_PROFILE, KLV_1108_COMPRESSION_LEVEL,
      KLV_1108_COMPRESSION_RATIO, KLV_1108_STREAM_BITRATE, KLV_1108_DOCUMENT_VERSION] at hentry
    rcases hentry with h | h <;> subst h <;>
      exact ⟨_, rfl, by
        simp [klv_local_set.count, KLV_1108_METRIC_SET_NAME, KLV_1108_METRIC_SET_VERSION,
          KLV_1108_METRIC_SET_IMPLEMENTER, KLV_1108_METRIC_SET_PARAMETERS,
          KLV_1108_METRIC_SET_TIME, KLV_1108_METRIC_SET_VALUE]⟩
  · have hround : round ((1000000 : ℚ) / 30) = 33333 := by
      rw [round_eq, Int.floor_eq_iff]
      norm_num
    have hratio : (((1280 * 720 * 24 : Nat) : ℚ) / ((500000 : ℚ) / 30)) = 1327.104 := by
      norm_num
    simp [erase_metric_times, add_st_1108_expected, create_1108_set, period_pack_entries,
      metric_entries, compression_entries, ratio_entries, bitrate_entries, add_st_1108_input,
      create_1108_metric_set, klv_local_set.erase, htype, hprofile, hround,
      uncompressed_bits_per_pixel, klv_1108_document_version,
      KLV_1108_METRIC_LOCAL_SET, KLV_1108_ASSESSMENT_POINT, KLV_1108_METRIC_PERIOD_PACK,
      KLV_1108_COMPRESSION_TYPE, KLV_1108_COMPRESSION_PROFILE, KLV_1108_COMPRESSION_LEVEL,
      KLV_1108_COMPRESSION_RATIO, KLV_1108_STREAM_BITRATE, KLV_1108_DOCUMENT_VERSION,
      KLV_1108_METRIC_SET_NAME, KLV_1108_METRIC_SET_VERSION,
      KLV_1108_METRIC_SET_IMPLEMENTER, KLV_1108_METRIC_SET_PARAMETERS,
      KLV_1108_METRIC_SET_TIME, KLV_1108_METRIC_SET_VALUE]
    norm_num

/-- Witness of C7: the code table `sample_codes` and a constant clock. -/
theorem update_klv_add_st_1108_witness :
    ∃ root : klv_local_set,
      (update_klv.filter sample_codes (fun _ => 1700000000000000) update_klv.fresh
          [some (metadata.klv add_st_1108_input [])]).1
        = [some (metadata.klv add_st_1108_input
            [{ key := klv_1108_key, value := klv_value.local_set root }])] ∧
      (∀ entry ∈ klv_local_set.all_at root KLV_1108_METRIC_LOCAL_SET, has_one_time entry) ∧
      erase_metric_times root = add_st_1108_expected :=
  update_klv_add_st_1108 sample_codes (fun _ => 1700000000000000) rfl rfl

theorem filter_getElem? (codes : klv_1108_codes) (input : metadata_vector) :
    ∀ (clock : Nat → Nat) (self : update_klv) (i : Nat),
      (update_klv.filter codes clock self input).1[i]?
        = (input[i]?).map fun record =>
            (update_klv.update codes (clock i)
              (update_klv.filter codes clock self (input.take i)).2 record).1 := by
  induction input with
  | nil => intro clock self i; simp [filter_nil]
  | cons record rest ih =>
    intro clock self i
    cases i with
    | zero => simp [filter_cons, filter_nil]
    | succ j =>
      rw [filter_cons]
      simp only [List.getElem?_cons_succ, List.take_succ_cons]
      rw [ih, filter_cons]

theorem merge_1108_packet_append (new : klv_packet) (packets : List klv_packet)
    (h : ∀ p ∈ packets, p.key ≠ klv_1108_key) :
    merge_1108_packet new packets = packets ++ [new] := by
  induction packets with
  | nil => rfl
  | cons old rest ih =>
    have hold : old.key ≠ klv_1108_key := h old (List.mem_cons_self _ _)
    have hrest : ∀ p ∈ rest, p.key ≠ klv_1108_key :=
      fun p hp => h p (List.mem_cons_of_mem _ hp)
    simp [merge_1108_packet, hold, ih hrest]

theorem merge_1108_packet_replace (new : klv_packet) (packets : List klv_packet) :
    ∀ (i : Nat) (hi : i < packets.length),
      (packets.get ⟨i, hi⟩).key = klv_1108_key →
      (∀ j (hj : j < i), (packets.get ⟨j, Nat.lt_trans hj hi⟩).key ≠ klv_1108_key) →
      merge_1108_packet new packets = packets.set i new := by
  induction packets with
  | nil => intro i hi; simp at hi
  | cons old rest ih =>
    intro i hi hkey hfirst
    cases i with
    | zero =>
      have hold : old.key = klv_1108_key := by simpa using hkey
      simp [merge_1108_packet, hold]
    | succ k =>
      have hold : old.key ≠ klv_1108_key := by
        simpa using hfirst 0 (Nat.succ_pos k)
      have hk : k < rest.length := by simpa using hi
      have hrest := ih k hk (by simpa using hkey)
        (fun j hj => by simpa using hfirst (j + 1) (Nat.succ_lt_succ hj))
      simp [merge_1108_packet, hold, hrest]

/-- C8. Driver pass-through: for every input sequence made only of null
records and of records that cannot carry packets, whatever fields they hold,
`filter` returns the input sequence itself (same length, each record with all
its fields unchanged) and leaves the driver state as it was; the empty
sequence yields the empty sequence. -/
theorem update_klv_pass_through (codes : klv_1108_codes) (clock : Nat → Nat)
    (self : update_klv) (input : metadata_vector)
    (h : ∀ record ∈ input, cannot_carry_klv record) :
    update_klv.filter codes clock self input = (input, self) ∧
    (update_klv.filter codes clock self []).1 = [] := by
  refine ⟨?_, rfl⟩
  induction input generalizing clock self with
  | nil => rfl
  | cons record rest ih =>
    have hrec := update_passes codes (clock 0) self record (h record (List.mem_cons_self _ _))
    have hrest := ih (fun i => clock (i + 1)) self
      (fun r hr => h r (List.mem_cons_of_mem _ hr))
    rw [filter_cons, hrec]
    simp only [hrest]

/-- Witness of C8: the two records of `TEST( update_klv, non_klv_metadata_sptr )`,
the first of which holds a GSD. -/
theorem update_klv_pass_through_witness :
    update_klv.filter sample_codes (fun _ => 0) update_klv.fresh non_klv_input
      = (non_klv_input, update_klv.fresh) ∧
    (update_klv.filter sample_codes (fun _ => 0) update_klv.fresh []).1 = [] :=
  update_klv_pass_through sample_codes (fun _ => 0) update_klv.fresh non_klv_input
    (by simp [non_klv_input, cannot_carry_klv])

/-- C9. Merge placement: let the `i`-th record of the input be an eligible
KLV-capable frame with packet list `packets`. The `i`-th output record is the
same frame with a packet list `merged` and a newly synthesized ST 1108 packet
`new` such that: if `packets` holds a packet keyed with the ST 1108 key, the
first one at position `k`, then `merged` has the length of `packets`, holds
`new` at position `k` and every other packet of `packets` at its own
position; and if `packets` holds no such packet, `merged` is `packets`
followed by `new`. -/
theorem update_klv_merge_placement (codes : klv_1108_codes) (clock : Nat → Nat)
    (self : update_klv) (input : metadata_vector) (i : Nat)
    (fields : metadata_fields) (packets : List klv_packet)
    (hrecord : input[i]? = some (some (metadata.klv fields packets)))
    (heligible : has_synthesizer_input fields = true) :
    ∃ (merged : List klv_packet) (index : Nat),
      (update_klv.filter codes clock self input).1[i]?
        = some (some (metadata.klv fields merged)) ∧
      (∀ (k : Nat) (hk : k < packets.length),
        (packets.get ⟨k, hk⟩).key = klv_1108_key →
        (∀ j (hj : j < k), (packets.get ⟨j, Nat.lt_trans hj hk⟩).key ≠ klv_1108_key) →
        merged.length = packets.length ∧
        merged[k]? = some
          { key := klv_1108_key,
            value := klv_value.local_set (create_1108_set codes (clock i) index fields) } ∧
        ∀ j, j ≠ k → merged[j]? = packets[j]?) ∧
      ((∀ p ∈ packets, p.key ≠ klv_1108_key) →
        merged = packets ++
          [{ key := klv_1108_key,
             value := klv_value.local_set (create_1108_set codes (clock i) index fields) }]) := by
  refine ⟨merge_1108_packet
      { key := klv_1108_key,
        value := klv_value.local_set
          (create_1108_set codes (clock i)
            ((update_klv.filter codes clock self (input.take i)).2.last_period_index
              fields.VIDEO_DATA_STREAM_INDEX + 1) fields) } packets,
    (update_klv.filter codes clock self (input.take i)).2.last_period_index
      fields.VIDEO_DATA_STREAM_INDEX + 1, ?_, ?_, ?_⟩
  · rw [filter_getElem?, hrecord]
    simp only [Option.map_some', update_eligible _ _ _ _ _ heligible]
  · intro k hk hkey hfirst
    rw [merge_1108_packet_replace _ _ k hk hkey hfirst]
    refine ⟨by simp, by simp [hk], ?_⟩
    intro j hj
    simp [List.getElem?_set, Ne.symm hj]
  · intro hnone
    exact merge_1108_packet_append _ _ hnone

/-- Witness of C9: the scenario frame holding an ST 1108 packet between two
unrelated packets. -/
theorem update_klv_merge_placement_witness :
    ∃ (merged : List klv_packet) (index : Nat),
      (update_klv.filter sample_codes (fun _ => 0) update_klv.fresh
          [some (metadata.klv add_st_1108_input sample_packets)]).1[0]?
        = some (some (metadata.klv add_st_1108_input merged)) ∧
      (∀ (k : Nat) (hk : k < sample_packets.length),
        (sample_packets.get ⟨k, hk⟩).key = klv_1108_key →
        (∀ j (hj : j < k), (sample_packets.get ⟨j, Nat.lt_trans hj hk⟩).key ≠ klv_1108_key) →
        merged.length = sample_packets.length ∧
        merged[k]? = some
          { key := klv_1108_key,
            value := klv_value.local_set
              (create_1108_set sample_codes ((fun _ => 0) 0) index add_st_1108_input) } ∧
        ∀ j, j ≠ k → merged[j]? = sample_packets[j]?) ∧
      ((∀ p ∈ sample_packets, p.key ≠ klv_1108_key) →
        merged = sample_packets ++
          [{ key := klv_1108_key,
             value := klv_value.local_set
               (create_1108_set sample_codes ((fun _ => 0) 0) index add_st_1108_input) }]) :=
  update_klv_merge_placement sample_codes (fun _ => 0) update_klv.fresh
    [some (metadata.klv add_st_1108_input sample_packets)] 0 add_st_1108_input sample_packets
    rfl (by simp [has_synthesizer_input, add_st_1108_input])

theorem all_at_append (a b : klv_local_set) (tag : klv_lds_key) :
    klv_local_set.all_at (a ++ b) tag
      = klv_local_set.all_at a tag ++ klv_local_set.all_at b tag := by
  simp [klv_local_set.all_at]

theorem period_pack_no_ratio (index : Nat) (md : metadata_fields) :
    klv_local_set.all_at (period_pack_entries index md) KLV_1108_COMPRESSION_RATIO = [] := by
  unfold period_pack_entries
  split <;>
    simp [klv_local_set.all_at, KLV_1108_METRIC_PERIOD_PACK, KLV_1108_COMPRESSION_RATIO]

theorem metric_no_ratio (now : Nat) (md : metadata_fields) :
    klv_local_set.all_at (metric_entries now md) KLV_1108_COMPRESSION_RATIO = [] := by
  unfold metric_entries
  rw [all_at_append]
  cases md.AVERAGE_GSD <;> cases md.VNIIRS <;>
    simp [klv_local_set.all_at, KLV_1108_METRIC_LOCAL_SET, KLV_1108_COMPRESSION_RATIO]

theorem compression_no_ratio (codes : klv_1108_codes) (md : metadata_fields) :
    klv_local_set.all_at (compression_entries codes md) KLV_1108_COMPRESSION_RATIO = [] := by
  unfold compression_entries
  split <;>
    simp [klv_local_set.all_at, KLV_1108_COMPRESSION_TYPE, KLV_1108_COMPRESSION_PROFILE,
      KLV_1108_COMPRESSION_LEVEL, KLV_1108_COMPRESSION_RATIO]

theorem bitrate_no_ratio (md : metadata_fields) :
    klv_local_set.all_at (bitrate_entries md) KLV_1108_COMPRESSION_RATIO = [] := by
  unfold bitrate_entries
  split <;>
    simp [klv_local_set.all_at, KLV_1108_STREAM_BITRATE, KLV_1108_COMPRESSION_RATIO]

theorem all_at_ratio (codes : klv_1108_codes) (now index : Nat) (md : metadata_fields) :
    klv_local_set.all_at (create_1108_set codes now index md) KLV_1108_COMPRESSION_RATIO
      = ratio_entries md := by
  have hself : klv_local_set.all_at (ratio_entries md) KLV_1108_COMPRESSION_RATIO
      = ratio_entries md := by
    unfold ratio_entries
    split <;> simp [klv_local_set.all_at]
  unfold create_1108_set
  simp only [all_at_append, period_pack_no_ratio, metric_no_ratio, compression_no_ratio,
    bitrate_no_ratio, hself]
  simp [klv_local_set.all_at, KLV_1108_ASSESSMENT_POINT, KLV_1108_DOCUMENT_VERSION,
    KLV_1108_COMPRESSION_RATIO]

/-- C11. Compression ratio arithmetic. For every frame, code table, clock
reading and period index: (1) when bitrate, frame rate, width and height are
all present, the report holds exactly one Compression Ratio entry, whose value
is `(width * height * 24) / (bitrate / frame_rate)`; (2) for width 1280,
height 720, bitrate 500000 and frame rate 30 that value is exactly 1327.104;
(3) when any of the four inputs is absent the report holds no Compression
Ratio entry and is still produced, with its Assessment Point and Document
Version entries. -/
theorem compression_ratio_arithmetic (codes : klv_1108_codes) (now index : Nat)
    (md : metadata_fields) :
    (∀ (bitrate : Nat) (frame_rate : ℚ) (width height : Nat),
      md.VIDEO_BITRATE = some bitrate → md.VIDEO_FRAME_RATE = some frame_rate →
      md.IMAGE_WIDTH = some width → md.IMAGE_HEIGHT = some height →
      klv_local_set.all_at (create_1108_set codes now index md) KLV_1108_COMPRESSION_RATIO
        = [ ( KLV_1108_COMPRESSION_RATIO,
              klv_value.real
                (((width : ℚ) * (height : ℚ) * 24) / ((bitrate : ℚ) / frame_rate)) ) ]) ∧
    klv_local_set.all_at (create_1108_set codes now index add_st_1108_input)
        KLV_1108_COMPRESSION_RATIO
      = [ ( KLV_1108_COMPRESSION_RATIO, klv_value.real 1327.104) ] ∧
    ((md.VIDEO_BITRATE = none ∨ md.VIDEO_FRAME_RATE = none ∨
        md.IMAGE_WIDTH = none ∨ md.IMAGE_HEIGHT = none) →
      klv_local_set.count (create_1108_set codes now index md) KLV_1108_COMPRESSION_RATIO = 0 ∧
      (KLV_1108_ASSESSMENT_POINT, klv_value.enumeration KLV_1108_ASSESSMENT_POINT_ARCHIVE)
        ∈ create_1108_set codes now index md ∧
      (KLV_1108_DOCUMENT_VERSION, klv_value.uint 3) ∈ create_1108_set codes now index md) := by
  refine ⟨?_, ?_, ?_⟩
  · intro bitrate frame_rate width height hb hf hw hh
    rw [all_at_ratio]
    simp [ratio_entries, hb, hf, hw, hh, uncompressed_bits_per_pixel]
  · rw [all_at_ratio]
    simp only [ratio_entries, add_st_1108_input, uncompressed_bits_per_pixel]
    norm_num
  · intro habsent
    have hcount : klv_local_set.count (create_1108_set codes now index md)
        KLV_1108_COMPRESSION_RATIO
        = (klv_local_set.all_at (create_1108_set codes now index md)
            KLV_1108_COMPRESSION_RATIO).length := rfl
    refine ⟨?_, by simp [create_1108_set], by simp [create_1108_set, klv_1108_document_version]⟩
    rw [hcount, all_at_ratio]
    unfold ratio_entries
    rcases habsent with h | h | h | h
    · simp [h]
    · rw [h]; cases md.VIDEO_BITRATE <;> simp
    · rw [h]; cases md.VIDEO_BITRATE <;> cases md.VIDEO_FRAME_RATE <;> simp
    · rw [h]
      cases md.VIDEO_BITRATE <;> cases md.VIDEO_FRAME_RATE <;> cases md.IMAGE_WIDTH <;> simp

/-- C12. Local-set multiplicity. For every local set, tag and values `v1`,
`v2`: after inserting `v1` and then `v2` under the tag, `all_at` of the tag is
the earlier entries of the tag followed by the entries of `v1` and `v2` in
that order, and `count` counts both; after `erase` of the tag its `count` is
0 and its `all_at` is empty, while for every other tag `all_at` and `count`
are what they were in the original set, and the remaining entries are the
original entries of the other tags in their original order. -/
theorem local_set_multiplicity (set : klv_local_set) (tag : klv_lds_key) (v1 v2 : klv_value) :
    klv_local_set.all_at ((set.add tag v1).add tag v2) tag
      = klv_local_set.all_at set tag ++ [(tag, v1), (tag, v2)] ∧
    klv_local_set.count ((set.add tag v1).add tag v2) tag
      = klv_local_set.count set tag + 2 ∧
    klv_local_set.count (klv_local_set.erase ((set.add tag v1).add tag v2) tag) tag = 0 ∧
    klv_local_set.all_at (klv_local_set.erase ((set.add tag v1).add tag v2) tag) tag = [] ∧
    (∀ other, other ≠ tag →
      klv_local_set.all_at (klv_local_set.erase ((set.add tag v1).add tag v2) tag) other
        = klv_local_set.all_at set other ∧
      klv_local_set.count (klv_local_set.erase ((set.add tag v1).add tag v2) tag) other
        = klv_local_set.count set other) ∧
    klv_local_set.erase ((set.add tag v1).add tag v2) tag
      = set.filter (fun entry => entry.1 != tag) := by
  have herase : klv_local_set.erase ((set.add tag v1).add tag v2) tag
      = set.filter (fun entry => entry.1 != tag) := by
    simp [klv_local_set.erase, klv_local_set.add, List.filter_append]
  have hother : ∀ other, other ≠ tag →
      klv_local_set.all_at (set.filter (fun entry => entry.1 != tag)) other
        = klv_local_set.all_at set other := by
    intro other hne
    simp only [klv_local_set.all_at, List.filter_filter]
    congr 1
    funext entry
    by_cases h : entry.1 = other
    · simp [h, hne]
    · simp [h]
  refine ⟨?_, ?_, ?_, ?_, ?_, herase⟩
  · simp [klv_local_set.all_at, klv_local_set.add, List.filter_append]
  · simp [klv_local_set.count, klv_local_set.add, List.filter_append]
  · rw [herase]
    simp [klv_local_set.count, List.filter_filter]
  · rw [herase]
    simp [klv_local_set.all_at, List.filter_filter]
  · intro other hne
    rw [herase]
    exact ⟨hother other hne, by
      simpa [klv_local_set.count, klv_local_set.all_at] using
        congrArg List.length (hother other hne)⟩

/-! ## Per-stream period index: claim -/

end kwiver.arrows.klv

namespace kwiver.vital

/-! ## String helpers: lemmas -/

theorem c_string_of_no_nul (s : List Char) (h : ∀ c ∈ s, c ≠ NUL) : c_string s = s := by
  unfold c_string
  rw [List.takeWhile_eq_self_iff]
  intro c hc
  simpa using h c hc

theorem c_string_append_nul (text rest : List Char) :
    c_string (text ++ NUL :: rest) = c_string text := by
  induction text with
  | nil => simp [c_string, List.takeWhile]
  | cons c cs ih =>
    unfold c_string at ih ⊢
    by_cases hc : c = NUL
    · simp [List.takeWhile, hc]
    · simp [List.takeWhile, hc, ih]

theorem copy_then_last (delim : List Char) (rest : List std_string) :
    ∀ (os first : std_string),
      copy_to_ostream delim os (first :: rest).dropLast
          ++ (first :: rest).getLast (List.cons_ne_nil _ _)
        = os ++ List.intercalate (c_string delim) (first :: rest) := by
  induction rest with
  | nil => intro os first; simp [copy_to_ostream, List.intercalate]
  | cons second rest ih =>
    intro os first
    have h := ih (os ++ first ++ c_string delim) second
    simp only [List.dropLast_cons₂, copy_to_ostream, List.getLast_cons (List.cons_ne_nil _ _)]
    rw [h]
    simp [List.intercalate, List.intersperse]

theorem join_eq_intercalate (elements : List std_string) (str_separator : std_string) :
    join elements str_separator = List.intercalate (c_string str_separator) elements := by
  match elements with
  | [] => simp [join, List.intercalate]
  | [only] => simp [join, List.intercalate]
  | first :: second :: rest =>
    have h := copy_then_last str_separator (second :: rest) [] first
    simpa [join] using h

theorem compare_chars_eq_zero (a : List Char) :
    ∀ b : List Char, compare_chars a b = 0 ↔ a = b := by
  induction a with
  | nil => intro b; cases b <;> simp [compare_chars]
  | cons x xs ih =>
    intro b
    cases b with
    | nil => simp [compare_chars]
    | cons y ys =>
      simp only [compare_chars, List.cons.injEq]
      rcases lt_trichotomy x y with h | h | h
      · have hne : x ≠ y := ne_of_lt h
        simp [h, hne]
      · subst h
        simp [ih]
      · have hne : x ≠ y := ne_of_gt h
        have hnot : ¬ x < y := not_lt_of_gt h
        simp [h, hne, hnot]

theorem store_chars_fits (buf src : List Char) (h : src.length ≤ buf.length) :
    store_chars buf src = (src ++ buf.drop src.length, 0) := by
  simp [store_chars, List.take_of_length_le h, Nat.sub_eq_zero_of_le h]

theorem store_chars_length (buf src : List Char) :
    (store_chars buf src).1.length = buf.length := by
  simp only [store_chars, List.length_append, List.length_take, List.length_drop]
  omega

theorem to_int_of_range (x : ℤ) (hlow : -2147483648 ≤ x) (hhigh : x ≤ INT_MAX) :
    to_int x = x := by
  unfold INT_MAX at hhigh
  unfold to_int
  omega

theorem c_string_length_le (s : List Char) : (c_string s).length ≤ s.length := by
  unfold c_string
  induction s with
  | nil => simp
  | cons c cs ih =>
    by_cases hc : c = NUL
    · simp [List.takeWhile, hc]
    · simp only [List.takeWhile_cons, bne_iff_ne, ne_eq, hc, not_false_eq_true, decide_True,
        if_true, List.length_cons]
      omega

theorem attempt_fits (fmt_str text : std_string) (junk : Char) (n : ℤ)
    (hfmt : (fmt_str.length : ℤ) < n) (htext : (text.length : ℤ) < n) (hn : n ≤ INT_MAX) :
    ∃ cells, new_char_array n junk = some cells ∧
      (strcpy cells fmt_str).2 = 0 ∧
      c_string (vsnprintf (some text) (strcpy cells fmt_str).1 n).1 = c_string text ∧
      (vsnprintf (some text) (strcpy cells fmt_str).1 n).2 = text.length := by
  have hpos : 0 < n := lt_of_le_of_lt (Int.ofNat_nonneg _) htext
  have hnneg : ¬ n < 0 := not_lt.mpr (le_of_lt hpos)
  refine ⟨List.replicate n.toNat junk, by simp [new_char_array, hnneg], ?_, ?_, ?_⟩
  · have hle := c_string_length_le fmt_str
    have hfit : (c_string fmt_str ++ [NUL]).length ≤ (List.replicate n.toNat junk).length := by
      simp only [List.length_append, List.length_singleton, List.length_replicate]
      omega
    simp [strcpy, store_chars_fits _ _ hfit]
  · have hlen : (strcpy (List.replicate n.toNat junk) fmt_str).1.length = n.toNat := by
      simp [strcpy, store_chars_length]
    have htake : text.take (n.toNat - 1) = text := List.take_of_length_le (by omega)
    simp only [vsnprintf, hpos, if_true, htake]
    rw [store_chars_fits _ _ (by simp [hlen]; omega)]
    simp [c_string_append_nul]
  · have hint : (text.length : ℤ) ≤ INT_MAX := le_trans (le_of_lt htext) hn
    simp [vsnprintf, hint]

theorem string_format_loop_step (fmt_str : std_string) (output : Option std_string)
    (junk : Char) (fuel : Nat) (n : ℤ) (attempts overrun : Nat) (cells : List Char)
    (hcells : new_char_array n junk = some cells) :
    string_format_loop fmt_str output junk (fuel + 1) n attempts overrun
      = if (vsnprintf output (strcpy cells fmt_str).1 n).2 < 0 ∨
            (vsnprintf output (strcpy cells fmt_str).1 n).2 ≥ n then
          string_format_loop fmt_str output junk fuel
            (to_int (n + to_int |to_int (to_int
              ((vsnprintf output (strcpy cells fmt_str).1 n).2 - n) + 1)|))
            (attempts + 1) (overrun + (strcpy cells fmt_str).2)
        else
          some (format_outcome.returned
            (c_string (vsnprintf output (strcpy cells fmt_str).1 n).1) (attempts + 1)
            (overrun + (strcpy cells fmt_str).2)) := by
  rw [string_format_loop]
  simp only [hcells]

/-! ## String helpers: claims -/

/-- C13. Code defect found at the claim. The documentation of `join` promises
the specified separator between the elements, and the claim asks for one full
copy of it. The separator `x`, NUL, `y` reaches the stream as the C string
`separator`, which ends at the NUL: joining `a` and `b` gives `axb`, not the
two elements with the full three-character separator between them. -/
theorem join_cuts_separator_at_nul :
    join [['a'], ['b']] ['x', NUL, 'y'] = ['a', 'x', 'b'] ∧
    List.intercalate ['x', NUL, 'y'] [['a'], ['b']] = ['a', 'x', NUL, 'y', 'b'] ∧
    join [['a'], ['b']] ['x', NUL, 'y'] ≠ List.intercalate ['x', NUL, 'y'] [['a'], ['b']] := by
  decide

/-- Where the separator holds no NUL character `join` does what its
documentation says: the result is the elements concatenated in order with
one full copy of the separator between each pair of adjacent elements and
nothing before the first or after the last element; and for every separator
the empty list gives the empty string and a one-element list gives that
element unchanged. -/
theorem join_without_nul (elements : List std_string) (str_separator : std_string)
    (hseparator : ∀ c ∈ str_separator, c ≠ NUL) :
    join elements str_separator = List.intercalate str_separator elements ∧
    (∀ separator : std_string, join [] separator = []) ∧
    (∀ (separator only : std_string), join [only] separator = only) := by
  refine ⟨?_, fun _ => rfl, fun _ _ => rfl⟩
  rw [join_eq_intercalate, c_string_of_no_nul _ hseparator]

/-- C14. For all strings `input` and `pattern`, `starts_with` returns true if
and only if `pattern` is a leading part of `input`; it is true for the empty
pattern and false whenever `pattern` is longer than `input`. -/
theorem starts_with_iff (input pattern : std_string) :
    (starts_with input pattern = true ↔ pattern <+: input) ∧
    starts_with input [] = true ∧
    (input.length < pattern.length → starts_with input pattern = false) := by
  have hiff : starts_with input pattern = true ↔ pattern <+: input := by
    simp only [starts_with, std_string_compare, List.drop_zero, decide_eq_true_eq]
    rw [eq_comm, compare_chars_eq_zero, List.prefix_iff_eq_take, eq_comm]
  refine ⟨hiff, by simp [starts_with, std_string_compare, compare_chars], ?_⟩
  intro hlen
  cases hs : starts_with input pattern with
  | false => rfl
  | true =>
    have hle := (hiff.mp hs).length_le
    omega

/-- C15. Code defects found at the claim. (1) For the format `%c%c%c` with the
arguments `a`, NUL and `b` the formatter reports the output length 3 and the
first attempt fits the buffer, yet the string returned is the single
character `a`: `std::string( formatted.get() )` reads the buffer as a C
string, so the three-character output comes back cut short. (2) For the
empty format string, which the claim names, the loop does end after two
attempts with the empty string, but the first attempt's `strcpy` stores the
terminator into `new char[0]`: one character past the end of the array. -/
theorem string_format_cuts_at_nul :
    string_format 2 ['%', 'c', '%', 'c', '%', 'c'] (some ['a', NUL, 'b']) 'j'
      = some (format_outcome.returned ['a'] 1 0) ∧
    (['a', NUL, 'b'] : std_string).length = 3 ∧
    string_format 2 [] (some []) 'j' = some (format_outcome.returned [] 2 1) := by
  decide

/-- Where the format string is not empty, twice its length and the length of
the output plus one are values of `int`, the retry loop ends after at most two
formatting attempts (two rounds of fuel suffice) without storing anything
past its arrays, and the buffer read back as a C string gives the output up
to its first NUL character: the complete output when it holds none. -/
theorem string_format_in_range (fuel : Nat) (fmt_str text : std_string) (junk : Char)
    (hfuel : 2 ≤ fuel) (hformat : 1 ≤ fmt_str.length)
    (hformat_int : (fmt_str.length : ℤ) * 2 ≤ INT_MAX)
    (htext_int : (text.length : ℤ) < INT_MAX) :
    ∃ attempts : Nat, attempts ≤ 2 ∧
      string_format fuel fmt_str (some text) junk
        = some (format_outcome.returned (c_string text) attempts 0) ∧
      ((∀ c ∈ text, c ≠ NUL) →
        string_format fuel fmt_str (some text) junk
          = some (format_outcome.returned text attempts 0)) := by
  obtain ⟨k, rfl⟩ : ∃ k, fuel = k + 2 := ⟨fuel - 2, by omega⟩
  have hmax : INT_MAX = 2147483647 := rfl
  have hn0 : to_int (to_int (fmt_str.length : ℤ) * 2) = (fmt_str.length : ℤ) * 2 := by
    rw [to_int_of_range (fmt_str.length : ℤ) (by omega) (by omega)]
    exact to_int_of_range _ (by omega) hformat_int
  have hfmt0 : (fmt_str.length : ℤ) < (fmt_str.length : ℤ) * 2 := by omega
  by_cases hfirst : (text.length : ℤ) < (fmt_str.length : ℤ) * 2
  · obtain ⟨cells, hcells, hover, hread, hret⟩ :=
      attempt_fits fmt_str text junk _ hfmt0 hfirst hformat_int
    have hno : ¬ ((text.length : ℤ) < 0 ∨ (text.length : ℤ) ≥ (fmt_str.length : ℤ) * 2) := by
      omega
    have hrun : string_format (k + 2) fmt_str (some text) junk
        = some (format_outcome.returned (c_string text) 1 0) := by
      unfold string_format
      rw [hn0, string_format_loop_step _ _ _ _ _ _ _ _ hcells, hret, if_neg hno, hread, hover]
    refine ⟨1, by omega, hrun, fun hnul => ?_⟩
    rw [hrun, c_string_of_no_nul _ hnul]
  · have hgrow : to_int ((fmt_str.length : ℤ) * 2
        + to_int |to_int (to_int ((text.length : ℤ) - (fmt_str.length : ℤ) * 2) + 1)|)
        = (text.length : ℤ) + 1 := by
      have h1 : to_int ((text.length : ℤ) - (fmt_str.length : ℤ) * 2)
          = (text.length : ℤ) - (fmt_str.length : ℤ) * 2 :=
        to_int_of_range _ (by omega) (by omega)
      have h2 : to_int ((text.length : ℤ) - (fmt_str.length : ℤ) * 2 + 1)
          = (text.length : ℤ) - (fmt_str.length : ℤ) * 2 + 1 :=
        to_int_of_range _ (by omega) (by omega)
      have h3 : |(text.length : ℤ) - (fmt_str.length : ℤ) * 2 + 1|
          = (text.length : ℤ) - (fmt_str.length : ℤ) * 2 + 1 := abs_of_nonneg (by omega)
      have h4 : to_int ((text.length : ℤ) - (fmt_str.length : ℤ) * 2 + 1)
          = (text.length : ℤ) - (fmt_str.length : ℤ) * 2 + 1 := h2
      rw [h1, h2, h3, h4]
      rw [show (fmt_str.length : ℤ) * 2 + ((text.length : ℤ) - (fmt_str.length : ℤ) * 2 + 1)
          = (text.length : ℤ) + 1 by ring]
      exact to_int_of_range _ (by omega) (by omega)
    obtain ⟨cells0, hcells0⟩ : ∃ cells, new_char_array ((fmt_str.length : ℤ) * 2) junk
        = some cells := by
      have : ¬ (fmt_str.length : ℤ) * 2 < 0 := by omega
      exact ⟨List.replicate ((fmt_str.length : ℤ) * 2).toNat junk, by
        simp [new_char_array, this]⟩
    have hover0 : (strcpy cells0 fmt_str).2 = 0 := by
      have hnneg : ¬ (fmt_str.length : ℤ) * 2 < 0 := by omega
      have hc : cells0 = List.replicate ((fmt_str.length : ℤ) * 2).toNat junk := by
        simpa [new_char_array, hnneg] using hcells0.symm
      have hle := c_string_length_le fmt_str
      have hfit : (c_string fmt_str ++ [NUL]).length ≤ cells0.length := by
        rw [hc]
        simp only [List.length_append, List.length_singleton, List.length_replicate]
        omega
      simp [strcpy, store_chars_fits _ _ hfit]
    have hret0 : (vsnprintf (some text) (strcpy cells0 fmt_str).1
        ((fmt_str.length : ℤ) * 2)).2 = text.length := by
      have hint : (text.length : ℤ) ≤ INT_MAX := le_of_lt htext_int
      simp [vsnprintf, hint]
    obtain ⟨cells, hcells, hover, hread, hret⟩ :=
      attempt_fits fmt_str text junk ((text.length : ℤ) + 1) (by omega) (by omega) (by omega)
    have hretry : (text.length : ℤ) < 0 ∨ (text.length : ℤ) ≥ (fmt_str.length : ℤ) * 2 := by
      omega
    have hno : ¬ ((text.length : ℤ) < 0 ∨ (text.length : ℤ) ≥ (text.length : ℤ) + 1) := by
      omega
    have hrun : string_format (k + 2) fmt_str (some text) junk
        = some (format_outcome.returned (c_string text) 2 0) := by
      unfold string_format
      rw [hn0, string_format_loop_step _ _ _ _ _ _ _ _ hcells0, hret0, if_pos hretry, hgrow,
        string_format_loop_step _ _ _ _ _ _ _ _ hcells, hret, if_neg hno, hread, hover0, hover]
    refine ⟨2, le_refl 2, hrun, fun hnul => ?_⟩
    rw [hrun, c_string_of_no_nul _ hnul]

/-- For a format string of 2^30 characters the product
`( (int)fmt_str.size() ) * 2` leaves the range of `int`: in two's-complement
arithmetic `n` is negative and the first `new char[n]` throws. -/
theorem string_format_size_overflow (fuel : Nat) (fmt_str : std_string)
    (output : Option std_string) (junk : Char) (hsize : fmt_str.length = 1073741824) :
    string_format (fuel + 1) fmt_str output junk
      = some (format_outcome.bad_array_new_length 0) := by
  have hn : to_int (to_int (fmt_str.length : ℤ) * 2) = -2147483648 := by
    rw [hsize]
    unfold to_int
    norm_num
  unfold string_format
  rw [hn, string_format_loop]
  simp [new_char_array]

/-! ## Structure-from-motion constraints: lemmas -/

theorem map_find_isSome {V : Type} (m : std_map V) (key : frame_id_t) :
    (map_find m key).isSome = true ↔ ∃ entry ∈ m, entry.1 = key := by
  simp [map_find, List.find?_isSome]

theorem map_find_none {V : Type} (m : std_map V) (key : frame_id_t)
    (h : ∀ entry ∈ m, entry.1 ≠ key) : map_find m key = none := by
  simp only [map_find, List.find?_eq_none]
  intro entry hentry
  simpa using h entry hentry

theorem map_find_of_mem {V : Type} (m : std_map V) (hordered : map_ordered m)
    (entry : frame_id_t × V) (hentry : entry ∈ m) : map_find m entry.1 = some entry := by
  induction m with
  | nil => simp at hentry
  | cons head rest ih =>
    rw [map_ordered, List.pairwise_cons] at hordered
    rcases List.mem_cons.mp hentry with h | h
    · subst h
      simp [map_find]
    · have hlt := hordered.1 entry h
      have hne : ¬ head.1 = entry.1 := ne_of_lt hlt
      have := ih hordered.2 h
      simp only [map_find] at this ⊢
      rw [List.find?_cons_of_neg _ (by simpa using hne)]
      exact this

theorem map_assign_keys {V : Type} (m : std_map V) (key : frame_id_t) (value : V) :
    ∀ entry ∈ map_assign m key value, entry = (key, value) ∨ entry ∈ m := by
  induction m with
  | nil => intro entry h; simpa [map_assign] using h
  | cons head rest ih =>
    intro entry h
    unfold map_assign at h
    split_ifs at h with h1 h2
    · rcases List.mem_cons.mp h with h | h
      · exact Or.inl h
      · exact Or.inr h
    · rcases List.mem_cons.mp h with h | h
      · exact Or.inl h
      · exact Or.inr (List.mem_cons_of_mem _ h)
    · rcases List.mem_cons.mp h with h | h
      · exact Or.inr (h ▸ List.mem_cons_self _ _)
      · rcases ih entry h with h | h
        · exact Or.inl h
        · exact Or.inr (List.mem_cons_of_mem _ h)

theorem map_assign_ordered {V : Type} (m : std_map V) (key : frame_id_t) (value : V)
    (hordered : map_ordered m) : map_ordered (map_assign m key value) := by
  induction m with
  | nil => simp [map_assign, map_ordered]
  | cons head rest ih =>
    rw [map_ordered, List.pairwise_cons] at hordered
    unfold map_assign
    split_ifs with h1 h2
    · rw [map_ordered, List.pairwise_cons, List.pairwise_cons]
      refine ⟨?_, hordered⟩
      intro entry hentry
      rcases List.mem_cons.mp hentry with h | h
      · subst h; exact h1
      · exact lt_trans h1 (hordered.1 entry h)
    · rw [map_ordered, List.pairwise_cons]
      refine ⟨?_, hordered.2⟩
      intro entry hentry
      have := hordered.1 entry hentry
      simpa [h2] using this
    · rw [map_ordered, List.pairwise_cons]
      refine ⟨?_, ih hordered.2⟩
      intro entry hentry
      rcases map_assign_keys rest key value entry hentry with h | h
      · subst h
        exact lt_of_le_of_ne (not_lt.mp h1) (fun e => h2 e.symm)
      · exact hordered.1 entry h

theorem map_assign_self_mem {V : Type} (m : std_map V) (key : frame_id_t) (value : V) :
    (key, value) ∈ map_assign m key value := by
  induction m with
  | nil => simp [map_assign]
  | cons head rest ih =>
    unfold map_assign
    split_ifs with h1 h2
    · exact List.mem_cons_self _ _
    · exact List.mem_cons_self _ _
    · exact List.mem_cons_of_mem _ ih

theorem map_assign_append {V : Type} (m : std_map V) (key : frame_id_t) (value : V)
    (h : ∀ entry ∈ m, entry.1 < key) : map_assign m key value = m ++ [(key, value)] := by
  induction m with
  | nil => rfl
  | cons head rest ih =>
    have hhead : head.1 < key := h head (List.mem_cons_self _ _)
    have h1 : ¬ key < head.1 := not_lt_of_gt hhead
    have h2 : ¬ key = head.1 := ne_of_gt hhead
    simp [map_assign, h1, h2, ih (fun e he => h e (List.mem_cons_of_mem _ he))]

/-! ## Structure-from-motion constraints: claims -/

/-- C17. For every frame id `fid >= 0`, `get_focal_length_prior` returns true
if and only if a metadata map is set, an image size is stored for `fid`, and
the metadata of `fid` provides a horizontal field of view or both a target
width and a slant range; and whenever it returns false the `focal_length`
argument is left unchanged. -/
theorem get_focal_length_prior_iff (fns : real_functions) (self : sfm_constraints)
    (fid : frame_id_t) (focal_length : ℚ) (hfid : 0 ≤ fid) :
    ((self.get_focal_length_prior fns fid focal_length).1 = true ↔
      ∃ md, self.m_md = some md ∧
        (∃ entry ∈ self.m_image_data, entry.1 = fid) ∧
        ((md.get_horizontal_field_of_view fid).isSome = true ∨
          ((md.get_target_width fid).isSome = true ∧
            (md.get_slant_range fid).isSome = true))) ∧
    ((self.get_focal_length_prior fns fid focal_length).1 = false →
      (self.get_focal_length_prior fns fid focal_length).2 = focal_length) := by
  unfold sfm_constraints.get_focal_length_prior
  cases hmd : self.m_md with
  | none => simp
  | some md =>
    have hstored := map_find_isSome self.m_image_data fid
    simp only [sfm_constraints.get_image_width, hfid, ge_iff_le, if_true, Option.some.injEq,
      exists_eq_left']
    cases hfind : map_find self.m_image_data fid with
    | none =>
      rw [hfind] at hstored
      have hnone : ¬ ∃ entry ∈ self.m_image_data, entry.1 = fid := by
        intro h
        simpa using hstored.mpr h
      simp [hnone]
    | some data_it =>
      rw [hfind] at hstored
      have hsome : ∃ entry ∈ self.m_image_data, entry.1 = fid := hstored.mp rfl
      simp only [Bool.not_true, Bool.false_eq_true, if_false, hsome, true_and]
      cases hfov : md.get_horizontal_field_of_view fid with
      | some hfov_value => simp [focal_length_loop, hfov]
      | none =>
        cases htw : md.get_target_width fid <;> cases hsr : md.get_slant_range fid <;>
          simp [focal_length_loop, hfov, htw, hsr]

/-- Witness of C17: frame 7 of `sample_metadata_map`, which has a target
width and a slant range, after image sizes were stored for the frames 3 and
7. -/
theorem get_focal_length_prior_iff_witness :
    (({ sized_constraints with m_md := some sample_metadata_map }.get_focal_length_prior
        sample_functions 7 0).1 = true ↔
      ∃ md, { sized_constraints with m_md := some sample_metadata_map }.m_md = some md ∧
        (∃ entry ∈ { sized_constraints with m_md := some sample_metadata_map }.m_image_data,
          entry.1 = 7) ∧
        ((md.get_horizontal_field_of_view 7).isSome = true ∨
          ((md.get_target_width 7).isSome = true ∧ (md.get_slant_range 7).isSome = true))) ∧
    (({ sized_constraints with m_md := some sample_metadata_map }.get_focal_length_prior
        sample_functions 7 0).1 = false →
      ({ sized_constraints with m_md := some sample_metadata_map }.get_focal_length_prior
        sample_functions 7 0).2 = 0) :=
  get_focal_length_prior_iff sample_functions
    { sized_constraints with m_md := some sample_metadata_map } 7 0 (by decide)

/-- C18. Image-size lookup of `get_image_width` and `get_image_height`, for a
map `m_image_data` that satisfies the ordering invariant of `std::map`. For
`fid >= 0` they return true if and only if an entry is stored under exactly
`fid`, yielding that entry's width and height, and otherwise return false and
leave the output argument unchanged. For `fid < 0` they return true if and
only if at least one entry is stored, yielding the width and height of the
entry with the smallest frame id. An entry is stored by `store_image_size`,
which keeps the invariant and makes its frame's entry the given size. -/
theorem image_size_lookup (self : sfm_constraints) (fid : frame_id_t) (out : ℤ)
    (hordered : map_ordered self.m_image_data) :
    (0 ≤ fid →
      (∀ entry ∈ self.m_image_data, entry.1 = fid →
        self.get_image_width fid out = (true, entry.2.width) ∧
        self.get_image_height fid out = (true, entry.2.height)) ∧
      ((∀ entry ∈ self.m_image_data, entry.1 ≠ fid) →
        self.get_image_width fid out = (false, out) ∧
        self.get_image_height fid out = (false, out))) ∧
    (fid < 0 →
      (∀ entry ∈ self.m_image_data, (∀ other ∈ self.m_image_data, entry.1 ≤ other.1) →
        self.get_image_width fid out = (true, entry.2.width) ∧
        self.get_image_height fid out = (true, entry.2.height)) ∧
      (self.m_image_data = [] →
        self.get_image_width fid out = (false, out) ∧
        self.get_image_height fid out = (false, out))) ∧
    (∀ (stored : frame_id_t) (image_width image_height : ℤ),
      map_ordered (self.store_image_size stored image_width image_height).m_image_data ∧
      (stored, ({ width := image_width, height := image_height } : im_data))
        ∈ (self.store_image_size stored image_width image_height).m_image_data) := by
  refine ⟨?_, ?_, ?_⟩
  · intro hfid
    refine ⟨?_, ?_⟩
    · intro entry hentry hkey
      have hfind := map_find_of_mem _ hordered entry hentry
      rw [hkey] at hfind
      simp [sfm_constraints.get_image_width, sfm_constraints.get_image_height, hfid, hfind]
    · intro hnone
      have hfind := map_find_none _ fid hnone
      simp [sfm_constraints.get_image_width, sfm_constraints.get_image_height, hfid, hfind]
  · intro hfid
    have hneg : ¬ fid ≥ 0 := not_le.mpr hfid
    refine ⟨?_, ?_⟩
    · intro entry hentry hleast
      cases hdata : self.m_image_data with
      | nil => rw [hdata] at hentry; simp at hentry
      | cons begin_ rest =>
        rw [hdata] at hentry hleast hordered
        rw [map_ordered, List.pairwise_cons] at hordered
        have hbegin : entry = begin_ := by
          rcases List.mem_cons.mp hentry with h | h
          · exact h
          · have h1 := hordered.1 entry h
            have h2 := hleast begin_ (List.mem_cons_self _ _)
            exact absurd h1 (not_lt.mpr h2)
        simp [sfm_constraints.get_image_width, sfm_constraints.get_image_height, hneg, hdata,
          hbegin]
    · intro hempty
      simp [sfm_constraints.get_image_width, sfm_constraints.get_image_height, hneg, hempty]
  · intro stored image_width image_height
    exact ⟨map_assign_ordered _ _ _ hordered, map_assign_self_mem _ _ _⟩

/-- Witness of C18: the object `sized_constraints`, built by three calls of
`store_image_size`, looked up at frame 7. -/
theorem image_size_lookup_witness :
    (0 ≤ (7 : frame_id_t) →
      (∀ entry ∈ sized_constraints.m_image_data, entry.1 = 7 →
        sized_constraints.get_image_width 7 (-1) = (true, entry.2.width) ∧
        sized_constraints.get_image_height 7 (-1) = (true, entry.2.height)) ∧
      ((∀ entry ∈ sized_constraints.m_image_data, entry.1 ≠ 7) →
        sized_constraints.get_image_width 7 (-1) = (false, -1) ∧
        sized_constraints.get_image_height 7 (-1) = (false, -1))) ∧
    ((7 : frame_id_t) < 0 →
      (∀ entry ∈ sized_constraints.m_image_data,
        (∀ other ∈ sized_constraints.m_image_data, entry.1 ≤ other.1) →
        sized_constraints.get_image_width 7 (-1) = (true, entry.2.width) ∧
        sized_constraints.get_image_height 7 (-1) = (true, entry.2.height)) ∧
      (sized_constraints.m_image_data = [] →
        sized_constraints.get_image_width 7 (-1) = (false, -1) ∧
        sized_constraints.get_image_height 7 (-1) = (false, -1))) ∧
    (∀ (stored : frame_id_t) (image_width image_height : ℤ),
      map_ordered (sized_constraints.store_image_size stored image_width image_height).m_image_data ∧
      (stored, ({ width := image_width, height := image_height } : im_data))
        ∈ (sized_constraints.store_image_size stored image_width image_height).m_image_data) :=
  image_size_lookup sized_constraints 7 (-1)
    (map_assign_ordered _ _ _ (map_assign_ordered _ _ _ (map_assign_ordered _ _ _
      (by simp [empty_constraints, map_ordered]))))

/-! ## Camera position priors -/

theorem position_priors_loop_eq (self : sfm_constraints) (junk : vector_3d)
    (fids : List frame_id_t) :
    ∀ local_positions : std_map vector_3d,
      (∀ entry ∈ local_positions, ∀ fid ∈ fids, entry.1 < fid) →
      fids.Pairwise (fun a b => a < b) →
      position_priors_loop self junk fids local_positions
        = local_positions ++
            kept_positions self junk (local_positions.getLast?.map fun entry => entry.2) fids := by
  induction fids with
  | nil => intro acc _ _; simp [position_priors_loop, kept_positions]
  | cons fid rest ih =>
    intro acc hbelow hordered
    rw [List.pairwise_cons] at hordered
    have hrest : ∀ entry ∈ acc, ∀ k ∈ rest, entry.1 < k :=
      fun entry he k hk => hbelow entry he k (List.mem_cons_of_mem _ hk)
    have hfid : ∀ entry ∈ acc, entry.1 < fid :=
      fun entry he => hbelow entry he fid (List.mem_cons_self _ _)
    unfold position_priors_loop kept_positions
    by_cases hprior : (self.get_camera_position_prior_local fid junk).1 = true
    · simp only [hprior, Bool.not_true, Bool.false_eq_true, if_false, if_true]
      have hgrow : position_priors_loop self junk rest
            (acc ++ [(fid, (self.get_camera_position_prior_local fid junk).2)])
          = acc ++ (fid, (self.get_camera_position_prior_local fid junk).2) ::
              kept_positions self junk
                (some (self.get_camera_position_prior_local fid junk).2) rest := by
        rw [ih (acc ++ [(fid, (self.get_camera_position_prior_local fid junk).2)]) ?_
          hordered.2]
        · simp
        · intro entry hentry k hk
          rcases List.mem_append.mp hentry with h | h
          · exact hrest entry h k hk
          · have : entry = (fid, (self.get_camera_position_prior_local fid junk).2) := by
              simpa using h
            rw [this]
            exact hordered.1 k hk
      by_cases hacc : acc = []
      · subst hacc
        simp only [dite_true, map_assign, List.getLast?_nil, Option.map_none']
        simpa using hgrow
      · simp only [hacc, dite_false]
        rw [List.getLast?_eq_getLast _ hacc]
        simp only [Option.map_some', Option.some.injEq]
        by_cases hsame : (self.get_camera_position_prior_local fid junk).2 = (acc.getLast hacc).2
        · have hsame2 : (acc.getLast hacc).2 = (self.get_camera_position_prior_local fid junk).2 :=
            hsame.symm
          simp only [hsame, if_true]
          rw [ih acc hrest hordered.2, List.getLast?_eq_getLast _ hacc]
          simp
        · have hsame2 : ¬ (acc.getLast hacc).2 = (self.get_camera_position_prior_local fid junk).2 :=
            fun e => hsame e.symm
          simp only [hsame, hsame2, if_false]
          rw [map_assign_append _ _ _ hfid]
          exact hgrow
    · have hfalse : (self.get_camera_position_prior_local fid junk).1 = false := by
        simpa using hprior
      simp only [hfalse, Bool.not_false, if_true, Bool.false_eq_true, if_false]
      exact ih acc hrest hordered.2

theorem kept_positions_mem (self : sfm_constraints) (junk : vector_3d) (fids : List frame_id_t) :
    ∀ (last : Option vector_3d) (entry : frame_id_t × vector_3d),
      entry ∈ kept_positions self junk last fids →
      entry.1 ∈ fids ∧ self.get_camera_position_prior_local entry.1 junk = (true, entry.2) := by
  induction fids with
  | nil => intro last entry h; simp [kept_positions] at h
  | cons fid rest ih =>
    intro last entry h
    unfold kept_positions at h
    by_cases hprior : (self.get_camera_position_prior_local fid junk).1 = true
    · simp only [hprior, if_true] at h
      by_cases hsame : last = some (self.get_camera_position_prior_local fid junk).2
      · simp only [hsame, if_true] at h
        have := ih _ entry h
        exact ⟨List.mem_cons_of_mem _ this.1, this.2⟩
      · simp only [hsame, if_false] at h
        rcases List.mem_cons.mp h with h | h
        · subst h
          exact ⟨List.mem_cons_self _ _, Prod.ext hprior rfl⟩
        · have := ih _ entry h
          exact ⟨List.mem_cons_of_mem _ this.1, this.2⟩
    · have hfalse : (self.get_camera_position_prior_local fid junk).1 = false := by
        simpa using hprior
      simp only [hfalse, Bool.false_eq_true, if_false] at h
      have := ih _ entry h
      exact ⟨List.mem_cons_of_mem _ this.1, this.2⟩

theorem kept_positions_chain (self : sfm_constraints) (junk : vector_3d)
    (fids : List frame_id_t) :
    ∀ last : Option vector_3d,
      List.Chain' (fun a b : frame_id_t × vector_3d => a.2 ≠ b.2)
        (kept_positions self junk last fids) ∧
      ∀ entry, (kept_positions self junk last fids).head? = some entry → last ≠ some entry.2 := by
  induction fids with
  | nil => intro last; simp [kept_positions]
  | cons fid rest ih =>
    intro last
    unfold kept_positions
    by_cases hprior : (self.get_camera_position_prior_local fid junk).1 = true
    · simp only [hprior, if_true]
      by_cases hsame : last = some (self.get_camera_position_prior_local fid junk).2
      · simp only [hsame, if_true]
        exact ih _
      · simp only [hsame, if_false]
        have hnext := ih (some (self.get_camera_position_prior_local fid junk).2)
        refine ⟨?_, ?_⟩
        · rw [List.chain'_cons']
          refine ⟨?_, hnext.1⟩
          intro entry hentry
          have := hnext.2 entry (by simpa using hentry)
          intro heq
          exact this (by rw [heq])
        · intro entry hentry
          have : entry = (fid, (self.get_camera_position_prior_local fid junk).2) := by
            simpa using hentry.symm
          rw [this]
          exact hsame
    · have hfalse : (self.get_camera_position_prior_local fid junk).1 = false := by
        simpa using hprior
      simp only [hfalse, Bool.false_eq_true, if_false]
      exact ih _

theorem kept_positions_cons (self : sfm_constraints) (junk : vector_3d)
    (last : Option vector_3d) (fid : frame_id_t) (rest : List frame_id_t) :
    kept_positions self junk last (fid :: rest)
      = if (self.get_camera_position_prior_local fid junk).1 = true then
          if last = some (self.get_camera_position_prior_local fid junk).2 then
            kept_positions self junk last rest
          else
            (fid, (self.get_camera_position_prior_local fid junk).2) ::
              kept_positions self junk
                (some (self.get_camera_position_prior_local fid junk).2) rest
        else kept_positions self junk last rest := by
  simp [kept_positions]

theorem kept_positions_append (self : sfm_constraints) (junk : vector_3d)
    (pre post : List frame_id_t) :
    ∀ last : Option vector_3d,
      kept_positions self junk last (pre ++ post)
        = kept_positions self junk last pre ++
            kept_positions self junk
              (match (kept_positions self junk last pre).getLast? with
                | some entry => some entry.2
                | none => last) post := by
  induction pre with
  | nil => intro last; simp [kept_positions]
  | cons fid rest ih =>
    intro last
    simp only [List.cons_append, kept_positions_cons]
    by_cases hprior : (self.get_camera_position_prior_local fid junk).1 = true
    · simp only [hprior, if_true]
      by_cases hsame : last = some (self.get_camera_position_prior_local fid junk).2
      · simp only [hsame, if_true]
        exact ih _
      · simp only [hsame, if_false]
        rw [ih, List.cons_append]
        congr 2
        cases hlast : (kept_positions self junk
            (some (self.get_camera_position_prior_local fid junk).2) rest).getLast? with
        | none =>
          have hnil : kept_positions self junk
              (some (self.get_camera_position_prior_local fid junk).2) rest = [] := by
            simpa using hlast
          simp [hnil]
        | some entry =>
          have hne : kept_positions self junk
              (some (self.get_camera_position_prior_local fid junk).2) rest ≠ [] := by
            intro h
            rw [h] at hlast
            simp at hlast
          have hcons : ((fid, (self.get_camera_position_prior_local fid junk).2) ::
              kept_positions self junk
                (some (self.get_camera_position_prior_local fid junk).2) rest).getLast?
              = some entry := by
            rw [List.getLast?_eq_getLast _ (List.cons_ne_nil _ _), List.getLast_cons hne,
              ← List.getLast?_eq_getLast _ hne, hlast]
          rw [hcons]
    · have hfalse : (self.get_camera_position_prior_local fid junk).1 = false := by
        simpa using hprior
      simp only [hfalse, Bool.false_eq_true, if_false]
      exact ih _

theorem kept_positions_ordered (self : sfm_constraints) (junk : vector_3d)
    (fids : List frame_id_t) (hordered : fids.Pairwise (fun a b => a < b)) :
    ∀ last : Option vector_3d, map_ordered (kept_positions self junk last fids) := by
  induction fids with
  | nil => intro last; simp [kept_positions, map_ordered]
  | cons fid rest ih =>
    intro last
    rw [List.pairwise_cons] at hordered
    rw [kept_positions_cons]
    split_ifs
    · exact ih hordered.2 _
    · rw [map_ordered, List.pairwise_cons]
      refine ⟨?_, ih hordered.2 _⟩
      intro entry hentry
      exact hordered.1 _ (kept_positions_mem self junk rest _ entry hentry).1
    · exact ih hordered.2 _

theorem kept_positions_split (self : sfm_constraints) (junk : vector_3d)
    (pre post : List frame_id_t) (fid : frame_id_t)
    (hordered : (pre ++ fid :: post).Pairwise (fun a b => a < b))
    (hprior : (self.get_camera_position_prior_local fid junk).1 = true) :
    (kept_positions self junk none (pre ++ fid :: post)).filter
        (fun entry => decide (entry.1 < fid))
      = kept_positions self junk none pre ∧
    ((fid, (self.get_camera_position_prior_local fid junk).2)
        ∈ kept_positions self junk none (pre ++ fid :: post) ↔
      ∀ last, (kept_positions self junk none pre).getLast? = some last →
        (self.get_camera_position_prior_local fid junk).2 ≠ last.2) := by
  rw [List.pairwise_append, List.pairwise_cons] at hordered
  obtain ⟨_, ⟨hpost, _⟩, hcross⟩ := hordered
  have hpre_keys : ∀ entry ∈ kept_positions self junk none pre, entry.1 < fid :=
    fun entry hentry =>
      hcross _ (kept_positions_mem self junk pre none entry hentry).1 fid
        (List.mem_cons_self _ _)
  have hpost_keys : ∀ (last : Option vector_3d),
      ∀ entry ∈ kept_positions self junk last post, fid < entry.1 :=
    fun last entry hentry => hpost _ (kept_positions_mem self junk post last entry hentry).1
  have htail_keys : ∀ (last : Option vector_3d),
      ∀ entry ∈ kept_positions self junk last (fid :: post), ¬ entry.1 < fid := by
    intro last entry hentry
    rcases List.mem_cons.mp (kept_positions_mem self junk (fid :: post) last entry hentry).1
      with h | h
    · rw [h]; exact lt_irrefl _
    · exact not_lt_of_gt (hpost _ h)
  rw [kept_positions_append]
  refine ⟨?_, ?_⟩
  · rw [List.filter_append, List.filter_eq_self.mpr, List.filter_eq_nil_iff.mpr]
    · simp
    · intro entry hentry
      simpa using htail_keys _ entry hentry
    · intro entry hentry
      simpa using hpre_keys entry hentry
  · have hnot_pre : (fid, (self.get_camera_position_prior_local fid junk).2)
        ∉ kept_positions self junk none pre :=
      fun h => lt_irrefl fid (hpre_keys _ h)
    have hnot_post : ∀ last : Option vector_3d,
        (fid, (self.get_camera_position_prior_local fid junk).2)
          ∉ kept_positions self junk last post :=
      fun last h => lt_irrefl fid (hpost_keys last _ h)
    rw [List.mem_append, kept_positions_cons]
    simp only [hprior, if_true, hnot_pre, false_or]
    cases hlast : (kept_positions self junk none pre).getLast? with
    | none => simp
    | some entry =>
      simp only [Option.some.injEq]
      by_cases hsame : entry.2 = (self.get_camera_position_prior_local fid junk).2
      · simp only [hsame, if_true, hnot_post, false_iff, not_forall]
        exact ⟨entry, rfl, fun h => h hsame.symm⟩
      · simp only [hsame, if_false, List.mem_cons, true_or, true_iff]
        intro last hl
        rw [← hl]
        exact fun h => hsame h.symm

/-- C16. For a constraints object whose metadata map is set, with the keys of
the map in ascending order, `get_camera_position_priors` returns a map that:
holds only frame ids of the metadata map for which
`get_camera_position_prior_local` succeeds, each with that local position;
holds the smallest such frame id; holds a such frame that comes after an
included frame if and only if its position differs from the position of the
most recently included frame, the last entry before it; and so has no two
consecutive entries with equal positions, its keys ascending. -/
theorem get_camera_position_priors_spec (self : sfm_constraints) (md : metadata_map)
    (junk : vector_3d) (hmd : self.m_md = some md)
    (hordered : md.metadata.Pairwise (fun a b => a < b)) :
    ∃ priors : std_map vector_3d,
      self.get_camera_position_priors junk = some priors ∧
      (∀ entry ∈ priors, entry.1 ∈ md.metadata ∧
        self.get_camera_position_prior_local entry.1 junk = (true, entry.2)) ∧
      (∀ fid ∈ md.metadata, (self.get_camera_position_prior_local fid junk).1 = true →
        (∀ other ∈ md.metadata,
          (self.get_camera_position_prior_local other junk).1 = true → fid ≤ other) →
        (fid, (self.get_camera_position_prior_local fid junk).2) ∈ priors) ∧
      (∀ fid ∈ md.metadata, (self.get_camera_position_prior_local fid junk).1 = true →
        ∀ last, (priors.filter (fun entry => decide (entry.1 < fid))).getLast? = some last →
          ((fid, (self.get_camera_position_prior_local fid junk).2) ∈ priors ↔
            (self.get_camera_position_prior_local fid junk).2 ≠ last.2)) ∧
      List.Chain' (fun a b : frame_id_t × vector_3d => a.2 ≠ b.2) priors ∧
      map_ordered priors := by
  have hloop : position_priors_loop self junk md.metadata []
      = kept_positions self junk none md.metadata := by
    rw [position_priors_loop_eq self junk md.metadata [] (by simp) hordered]
    simp
  refine ⟨kept_positions self junk none md.metadata, ?_, ?_, ?_, ?_, ?_, ?_⟩
  · simp [sfm_constraints.get_camera_position_priors, hmd, hloop]
  · exact fun entry hentry => kept_positions_mem self junk _ none entry hentry
  · intro fid hfid hprior hleast
    obtain ⟨pre, post, hsplit⟩ := List.append_of_mem hfid
    rw [hsplit] at hordered hleast ⊢
    have hparts := kept_positions_split self junk pre post fid hordered hprior
    rw [hparts.2]
    intro last hlast
    exfalso
    have hmem : last ∈ kept_positions self junk none pre := List.mem_of_getLast?_eq_some hlast
    have hinfo := kept_positions_mem self junk pre none last hmem
    have hle := hleast last.1 (List.mem_append_left _ hinfo.1) (by rw [hinfo.2])
    rw [List.pairwise_append] at hordered
    exact absurd (hordered.2.2 _ hinfo.1 fid (List.mem_cons_self _ _)) (not_lt.mpr hle)
  · intro fid hfid hprior last hlast
    obtain ⟨pre, post, hsplit⟩ := List.append_of_mem hfid
    rw [hsplit] at hordered hlast ⊢
    have hparts := kept_positions_split self junk pre post fid hordered hprior
    rw [hparts.1] at hlast
    rw [hparts.2]
    constructor
    · exact fun h => h last hlast
    · intro h other hother
      rw [hlast] at hother
      cases hother
      exact h
  · exact (kept_positions_chain self junk md.metadata none).1
  · exact kept_positions_ordered self junk md.metadata hordered none

/-- Witness of C16: the object `positioned_constraints`, whose result holds
the frames 1 and 6. -/
theorem get_camera_position_priors_spec_witness :
    ∃ priors : std_map vector_3d,
      positioned_constraints.get_camera_position_priors (0, 0, 0) = some priors ∧
      (∀ entry ∈ priors, entry.1 ∈ positioned_metadata.metadata ∧
        positioned_constraints.get_camera_position_prior_local entry.1 (0, 0, 0)
          = (true, entry.2)) ∧
      (∀ fid ∈ positioned_metadata.metadata,
        (positioned_constraints.get_camera_position_prior_local fid (0, 0, 0)).1 = true →
        (∀ other ∈ positioned_metadata.metadata,
          (positioned_constraints.get_camera_position_prior_local other (0, 0, 0)).1 = true →
          fid ≤ other) →
        (fid, (positioned_constraints.get_camera_position_prior_local fid (0, 0, 0)).2)
          ∈ priors) ∧
      (∀ fid ∈ positioned_metadata.metadata,
        (positioned_constraints.get_camera_position_prior_local fid (0, 0, 0)).1 = true →
        ∀ last, (priors.filter (fun entry => decide (entry.1 < fid))).getLast? = some last →
          ((fid, (positioned_constraints.get_camera_position_prior_local fid (0, 0, 0)).2)
              ∈ priors ↔
            (positioned_constraints.get_camera_position_prior_local fid (0, 0, 0)).2
              ≠ last.2)) ∧
      List.Chain' (fun a b : frame_id_t × vector_3d => a.2 ≠ b.2) priors ∧
      map_ordered priors :=
  get_camera_position_priors_spec positioned_constraints positioned_metadata (0, 0, 0) rfl
    (by decide)

end kwiver.vital
